import Mathlib

/-!
Shallow embedding of the allocation-recommendation core of the
weekly-wealth-advisor repository, together with proofs about its
specification claims.

Modelling conventions, applied uniformly:
  - JavaScript numbers are modelled as rationals; the display-only
    formatting calls (toFixed on strings that are never inspected by any
    claim) are abstracted by a plain toString rendering.
  - Date objects are abstracted: functions that read the current time
    receive it as an explicit argument (a timestamp string, or an integer
    count of epoch milliseconds for date arithmetic).
  - localStorage is modelled by explicit state passing: a function that
    reads and rewrites a stored list takes the stored value as an argument
    and returns the new value.
  - A JavaScript exception is modelled with Except: the analysis engine
    returns an EngineFailure for the TypeError it raises on an empty asset
    feed, and for the two Claude errors it rethrows.
-/

namespace WeeklyWealth

/- The Batteries rational arithmetic operations are marked irreducible,
which blocks elaborator-side evaluation of concrete instances; restore the
default transparency locally so that concrete runs of the embedded
functions can be settled by decide. -/
attribute [local semireducible] Rat.add Rat.sub Rat.mul Rat.inv

/-- JavaScript Math.round: round half toward positive infinity, that is
the integer floor of q + 1/2 (Rat.floor is the floor function on ℚ, kept
in its executable form). -/
def jsRound (q : ℚ) : ℤ := Rat.floor (q + 1/2)

/-- JavaScript parseFloat(x.toFixed(2)): the value rounded to two decimal
places. -/
def round2 (q : ℚ) : ℚ := (jsRound (q * 100) : ℚ) / 100

/-- JavaScript parseFloat(x.toFixed(3)): the value rounded to three decimal
places. -/
def round3 (q : ℚ) : ℚ := (jsRound (q * 1000) : ℚ) / 1000

/-- Display rendering of a number inside a template string; abstracts the
source code toFixed(2) formatting (no claim inspects these strings). -/
def fmt (q : ℚ) : String := toString q

/-- One tradable instrument from the market-data feed (marketData.ts).
The fields not consumed by the verified functions (weeklyChange, volume,
sparkline, sector, historicalReturns) are omitted. -/
structure Asset where
  symbol : String
  name : String
  type : String
  category : String
  price : ℚ
  weeklyChangePct : ℚ
deriving DecidableEq

/-- One allocation line of a proposed portfolio (analysisEngine). -/
structure PortfolioRecommendation where
  symbol : String
  name : String
  allocation : ℚ
  rationale : String
deriving DecidableEq

/-- Complete output of one analysis invocation (analysisEngine). -/
structure AnalysisResult where
  summary : String
  recommendations : List PortfolioRecommendation
  riskNote : String
  timestamp : String
  whyNow : Option String
  risks : Option String
  opportunities : Option String
  isAiGenerated : Option Bool
deriving DecidableEq

/-- Lookup in a JavaScript Map built by new Map(assets.map(a => [a.symbol, a])):
for a duplicated symbol the later entry wins, hence the reversed search. -/
def assetMapGet (assets : List Asset) (s : String) : Option Asset :=
  assets.reverse.find? (fun a => a.symbol == s)

/-! Snapshot service (snapshotService.ts). -/

/-- One persisted recommendation line of a snapshot. -/
structure SnapshotRecommendation where
  symbol : String
  name : String
  allocation : ℚ
  priceAtRecommendation : ℚ
deriving DecidableEq

/-- Durable record of one recommendation event. The ISO timestamp string is
abstracted to its epoch-millisecond value for the date arithmetic. -/
structure PortfolioSnapshot where
  id : String
  timestamp : ℤ
  formattedDate : String
  recommendations : List SnapshotRecommendation
  targetReturn : ℚ
  riskLevel : String
  dataSource : String
deriving DecidableEq

/-- Last n elements of a list, as in Array.slice(-n) for positive n. -/
def takeLast {α : Type} (n : Nat) (l : List α) : List α :=
  (l.reverse.take n).reverse

/-- Capacity of the snapshot history (MAX_SNAPSHOTS). -/
def MAX_SNAPSHOTS : Nat := 10

/-- saveSnapshot: append the snapshot to the stored history and keep only
the last MAX_SNAPSHOTS entries. The stored list is passed and returned
explicitly (localStorage state passing). -/
def saveSnapshot (all : List PortfolioSnapshot) (snapshot : PortfolioSnapshot) :
    List PortfolioSnapshot :=
  takeLast MAX_SNAPSHOTS (all ++ [snapshot])

/-- buildSnapshotFromAnalysis: join each recommendation symbol against the
asset feed to capture its entry price, then drop every line whose captured
price is not positive. Creation-time values (id, timestamp, formatted date)
are passed in explicitly. The mapping step of the join captures the price
of the matching asset, or zero when the symbol is absent from the feed. -/
def snapLineFor (assets : List Asset) (rec : PortfolioRecommendation) :
    SnapshotRecommendation :=
  { symbol := rec.symbol
    name := rec.name
    allocation := rec.allocation
    priceAtRecommendation := ((assetMapGet assets rec.symbol).map Asset.price).getD 0 }

/-- buildSnapshotFromAnalysis: join each recommendation symbol against the
asset feed to capture its entry price, then drop every line whose captured
price is not positive. -/
def buildSnapshotFromAnalysis (analysis : AnalysisResult) (assets : List Asset)
    (targetReturn : ℚ) (riskLevel : String) (dataSource : String)
    (idStr : String) (nowMs : ℤ) (formattedDate : String) : PortfolioSnapshot :=
  let recommendations :=
    (analysis.recommendations.map (snapLineFor assets)).filter
      (fun r => 0 < r.priceAtRecommendation)
  { id := idStr
    timestamp := nowMs
    formattedDate := formattedDate
    recommendations := recommendations
    targetReturn := targetReturn
    riskLevel := riskLevel
    dataSource := dataSource }

/-- Derived performance line for one matched snapshot recommendation. -/
structure PerformanceMetric where
  symbol : String
  name : String
  allocation : ℚ
  priceAtRecommendation : ℚ
  currentPrice : ℚ
  changePct : ℚ
  weightedContribution : ℚ
deriving DecidableEq

/-- Result of joining a snapshot with the current asset feed. -/
structure PerformanceResult where
  snapshot : PortfolioSnapshot
  metrics : List PerformanceMetric
  totalPnL : ℚ
  daysSince : ℤ
  hasCurrentPrices : Bool
deriving DecidableEq

/-- calculatePerformance: for each snapshot line with a current match and a
nonzero entry price, compute the rounded change and weighted contribution;
unmatched lines are skipped. The source sets hasCurrentPrices inside the
same guard that pushes a metric, so the flag equals nonemptiness of the
metric list. The loop body for one snapshot line: nothing for an unmatched
symbol or a zero entry price, otherwise the rounded metric record. -/
def performanceMetricFor (currentAssets : List Asset)
    (rec : SnapshotRecommendation) : Option PerformanceMetric :=
  match assetMapGet currentAssets rec.symbol with
  | none => none
  | some current =>
    if rec.priceAtRecommendation = (0 : ℚ) then none
    else
      let changePct :=
        round2 ((current.price - rec.priceAtRecommendation)
          / rec.priceAtRecommendation * 100)
      some
        { symbol := rec.symbol
          name := rec.name
          allocation := rec.allocation
          priceAtRecommendation := rec.priceAtRecommendation
          currentPrice := current.price
          changePct := changePct
          weightedContribution := round3 (changePct * rec.allocation / 100) }

/-- calculatePerformance: for each snapshot line with a current match and
a nonzero entry price, compute the rounded change and weighted
contribution; unmatched lines are skipped. The source sets
hasCurrentPrices inside the same guard that pushes a metric, so the flag
equals nonemptiness of the metric list. The current time is the explicit
nowMs argument. -/
def calculatePerformance (snapshot : PortfolioSnapshot)
    (currentAssets : List Asset) (nowMs : ℤ) : PerformanceResult :=
  let metrics : List PerformanceMetric :=
    snapshot.recommendations.filterMap (performanceMetricFor currentAssets)
  let totalPnL := round2 ((metrics.map PerformanceMetric.weightedContribution).sum)
  let daysSince := Int.fdiv (nowMs - snapshot.timestamp) 86400000
  { snapshot := snapshot
    metrics := metrics
    totalPnL := totalPnL
    daysSince := daysSince
    hasCurrentPrices := !metrics.isEmpty }

/-! Technical engine (technicalEngine.ts). -/

/-- Consecutive price deltas: changes[i] = prices[i+1] - prices[i]. -/
def changesOf : List ℚ → List ℚ
  | a :: b :: t => (b - a) :: changesOf (b :: t)
  | _ => []

/-- One step of the seeding loop: a positive change accumulates into the
gain sum, any other change accumulates its absolute value into the loss
sum. -/
def seedStep (gl : ℚ × ℚ) (c : ℚ) : ℚ × ℚ :=
  if 0 < c then (gl.1 + c, gl.2) else (gl.1, gl.2 + |c|)

/-- One step of the Wilder smoothing loop for a given period. -/
def wilderStep (period : ℚ) (gl : ℚ × ℚ) (c : ℚ) : ℚ × ℚ :=
  ((gl.1 * (period - 1) + (if 0 < c then c else 0)) / period,
   (gl.2 * (period - 1) + (if c < 0 then |c| else 0)) / period)

/-- calculateRSI: Wilder smoothed RSI. Returns none on fewer than
period + 1 data points; returns 100 when the smoothed average loss is
zero; otherwise 100 - 100/(1+RS) rounded to two decimals. -/
def calculateRSI (prices : List ℚ) (period : Nat := 14) : Option ℚ :=
  if prices.length < period + 1 then none
  else
    let changes := changesOf prices
    let seed := (changes.take period).foldl seedStep (0, 0)
    let avgGain := seed.1 / (period : ℚ)
    let avgLoss := seed.2 / (period : ℚ)
    let final := (changes.drop period).foldl (wilderStep (period : ℚ)) (avgGain, avgLoss)
    if final.2 = 0 then some 100
    else some (round2 (100 - 100 / (1 + final.1 / final.2)))

/-! Portfolio diff engine (autoScheduler.ts). -/

inductive RecommendationAction
  | BUY
  | SELL
  | HOLD
  | NEW
deriving DecidableEq

/-- One classified line of a portfolio diff. The two optional numeric
fields are absent for a NEW entry. -/
structure RecommendationDiff where
  symbol : String
  name : String
  allocation : ℚ
  action : RecommendationAction
  prevAllocation : Option ℚ
  allocationDelta : Option ℚ
deriving DecidableEq

structure PortfolioDiff where
  diffs : List RecommendationDiff
  hasChanges : Bool
  newSymbols : List String
  removedSymbols : List String
  changedSymbols : List String
deriving DecidableEq

/-- Previously persisted recommendation line (the single-slot record). -/
structure PrevRec where
  symbol : String
  name : String
  allocation : ℚ
deriving DecidableEq

/-- Sort key used by the final comparator: NEW and BUY first, then HOLD,
then SELL. -/
def actionOrder : RecommendationAction → Nat
  | .NEW => 0
  | .BUY => 0
  | .HOLD => 1
  | .SELL => 2

/-- The final Array.sort call: a stable sort by actionOrder, expressed as
the concatenation of the order-0, order-1 and order-2 groups, each kept in
encounter order (the groups partition the list, so this is exactly the
stable sort). -/
def sortDiffs (l : List RecommendationDiff) : List RecommendationDiff :=
  l.filter (fun d => actionOrder d.action == 0)
    ++ l.filter (fun d => actionOrder d.action == 1)
    ++ l.filter (fun d => actionOrder d.action == 2)

/-- Diff entry produced by the loop over the new map: NEW when the symbol
has no previous record, HOLD with the allocation delta otherwise. -/
def newDiffFor (prevRecs : List PrevRec) (r : SnapshotRecommendation) :
    RecommendationDiff :=
  match prevRecs.find? (fun p => p.symbol == r.symbol) with
  | none =>
    { symbol := r.symbol, name := r.name, allocation := r.allocation
      action := .NEW, prevAllocation := none, allocationDelta := none }
  | some prev =>
    { symbol := r.symbol, name := r.name, allocation := r.allocation
      action := .HOLD, prevAllocation := some prev.allocation
      allocationDelta := some (r.allocation - prev.allocation) }

/-- Contribution of one new-map entry to changedSymbols: its symbol, when
it is a HOLD whose absolute delta reaches the materiality threshold 3. -/
def changedSymbolFor (prevRecs : List PrevRec) (r : SnapshotRecommendation) :
    Option String :=
  match prevRecs.find? (fun p => p.symbol == r.symbol) with
  | none => none
  | some prev =>
    if 3 ≤ |r.allocation - prev.allocation| then some r.symbol else none

/-- Diff entry produced by the loop over the previous map for a symbol no
longer recommended. -/
def sellDiffFor (p : PrevRec) : RecommendationDiff :=
  { symbol := p.symbol, name := p.name, allocation := 0
    action := .SELL, prevAllocation := some p.allocation
    allocationDelta := some (-p.allocation) }

/-- computePortfolioDiff: classify every symbol of the new snapshot against
the previous recommendation record. The JavaScript Maps are modelled by
the lists themselves with first-match lookup; with duplicate-free symbol
lists (the data-model invariant) this matches Map semantics exactly. -/
def computePortfolioDiff (newSnapshot : PortfolioSnapshot)
    (prevRecs : List PrevRec) : PortfolioDiff :=
  let newList := newSnapshot.recommendations
  let newPart : List RecommendationDiff := newList.map (newDiffFor prevRecs)
  let newSymbols := (newList.filter
    (fun r => (prevRecs.find? (fun p => p.symbol == r.symbol)).isNone)).map
    (fun r => r.symbol)
  let changedSymbols := newList.filterMap (changedSymbolFor prevRecs)
  let inNew := fun (s : String) => newList.any (fun r => r.symbol == s)
  let sellPart : List RecommendationDiff :=
    (prevRecs.filter (fun p => !inNew p.symbol)).map sellDiffFor
  let removedSymbols := (prevRecs.filter (fun p => !inNew p.symbol)).map
    (fun p => p.symbol)
  let diffs := sortDiffs (newPart ++ sellPart)
  let hasChanges :=
    !newSymbols.isEmpty || !removedSymbols.isEmpty || !changedSymbols.isEmpty
  { diffs := diffs, hasChanges := hasChanges, newSymbols := newSymbols
    removedSymbols := removedSymbols, changedSymbols := changedSymbols }

/-! Rule-based allocation engine (analysisEngine.ts, generateAnalysis). -/

inductive RiskLevel
  | low
  | medium
  | high
deriving DecidableEq

/-- Failure surfaced to the caller of an engine entry point: the two
rethrown Claude errors, and the TypeError that generateAnalysis raises on
an empty asset feed when the summary template reads sorted[0].symbol. -/
inductive EngineFailure
  | claudeKeyInvalid
  | claudeRateLimit
  | typeError
deriving DecidableEq

/-- Stable insertion step for the descending sort by weekly change: an
already placed element stays in front exactly when its key is strictly
larger, so equal keys keep their encounter order. -/
def insertByChangeDesc (a : Asset) : List Asset → List Asset
  | [] => [a]
  | b :: t =>
    if a.weeklyChangePct < b.weeklyChangePct then b :: insertByChangeDesc a t
    else a :: b :: t

/-- Stable descending sort by weeklyChangePct, as Array.sort with the
comparator (a, b) => b.weeklyChangePct - a.weeklyChangePct. -/
def sortByChangeDesc (l : List Asset) : List Asset :=
  l.foldr insertByChangeDesc []

/-- pick: take up to maxCount assets from the pool in order, skipping any
symbol in the seen set and claiming every taken symbol; returns the picks
and the extended seen set. -/
def pick : List Asset → Nat → List String → List Asset × List String
  | _, 0, seen => ([], seen)
  | [], _ + 1, seen => ([], seen)
  | a :: t, n + 1, seen =>
    if a.symbol ∈ seen then pick t (n + 1) seen
    else
      let r := pick t n (a.symbol :: seen)
      (a :: r.1, r.2)

/-- One blueprint slot: an asset pool, a pick count and a target
percentage of the portfolio. -/
structure Slot where
  pool : List Asset
  count : Nat
  pct : ℚ
  label : String

/-- One selected asset together with its raw slot percentage share. -/
structure WPick where
  asset : Asset
  pct : ℚ
  label : String
deriving DecidableEq

/-- Risk-level allocation blueprints over the category pools of the feed,
in the order the source declares them. -/
def slotsOf (assets : List Asset) (riskLevel : RiskLevel) : List Slot :=
  let bistPool := sortByChangeDesc (assets.filter
    (fun a => a.category == "bist" && a.type == "stock"))
  let usPool := sortByChangeDesc (assets.filter
    (fun a => a.category == "us_stock" && a.type == "stock"))
  let etfPool := sortByChangeDesc (assets.filter (fun a => a.type == "etf"))
  let tefasPool := sortByChangeDesc (assets.filter (fun a => a.category == "tefas"))
  let cryptoPool := sortByChangeDesc (assets.filter (fun a => a.category == "crypto"))
  let commodityPool := sortByChangeDesc (assets.filter
    (fun a => a.category == "commodity"))
  let bondPool := sortByChangeDesc (assets.filter
    (fun a => a.category == "bond" || a.category == "forex"))
  match riskLevel with
  | .low =>
    [⟨tefasPool, 2, 30, "tefas"⟩, ⟨bondPool, 1, 20, "bond"⟩,
     ⟨commodityPool, 1, 20, "commodity"⟩, ⟨bistPool, 1, 15, "bist"⟩,
     ⟨etfPool, 1, 10, "etf"⟩, ⟨cryptoPool, 1, 5, "crypto"⟩]
  | .medium =>
    [⟨bistPool, 2, 25, "bist"⟩, ⟨usPool, 1, 20, "us"⟩,
     ⟨tefasPool, 1, 20, "tefas"⟩, ⟨cryptoPool, 1, 15, "crypto"⟩,
     ⟨commodityPool, 1, 10, "commodity"⟩, ⟨bondPool, 1, 10, "bond"⟩]
  | .high =>
    [⟨bistPool, 2, 30, "bist"⟩, ⟨usPool, 2, 25, "us"⟩,
     ⟨cryptoPool, 2, 25, "crypto"⟩, ⟨commodityPool, 1, 10, "commodity"⟩,
     ⟨tefasPool, 1, 5, "tefas"⟩, ⟨bondPool, 1, 5, "bond"⟩]

/-- Slot processing loop: pick from each slot in turn with the shared seen
set, splitting the slot percentage evenly over its actual picks. When a
pick comes back empty the source continues to the next slot, which equals
mapping over the empty pick list. -/
def buildSlots : List Slot → List String → List WPick × List String
  | [], seen => ([], seen)
  | slot :: rest, seen =>
    let pr := pick slot.pool slot.count seen
    let here := pr.1.map (fun a => ⟨a, slot.pct / (pr.1.length : ℚ), slot.label⟩)
    let rr := buildSlots rest pr.2
    (here ++ rr.1, rr.2)

/-- Weighted picks of one engine run: the blueprint picks, extended by the
zero-weight gainer fallback when fewer than three assets were selected. -/
def weightedPicksOf (assets : List Asset) (riskLevel : RiskLevel) : List WPick :=
  let sorted := sortByChangeDesc assets
  let gainers := sorted.filter (fun a => 0 < a.weeklyChangePct)
  let p := buildSlots (slotsOf assets riskLevel) []
  if p.1.length < 3 then
    let extras := (pick gainers (6 - p.1.length) p.2).1
    p.1 ++ extras.map (fun a => ⟨a, 0, "us"⟩)
  else p.1

/-- Total raw weight of the picks before normalisation. -/
def totalRawOf (assets : List Asset) (riskLevel : RiskLevel) : ℚ :=
  ((weightedPicksOf assets riskLevel).map WPick.pct).sum

/-- Normalisation to integer allocations: every pick except the last gets
its rounded proportional share of 100; the transient zero the source
stores in the last slot is immediately overwritten by
max 1 (100 - allocated), so the last entry is built directly with that
remainder. -/
def normaliseAllocations (picks : List WPick) : List (WPick × ℤ) :=
  let totalRaw := (picks.map WPick.pct).sum
  match picks.getLast? with
  | none => []
  | some lastP =>
    let firstPart := picks.dropLast
    let roundedInit := firstPart.map (fun p => (p, jsRound (p.pct / totalRaw * 100)))
    let allocated := (roundedInit.map Prod.snd).sum
    roundedInit ++ [(lastP, max 1 (100 - allocated))]

/-- Category-specific rationale templates (apostrophes of the Turkish
source text are elided; no claim inspects these strings). -/
def rationaleFor (a : Asset) (label : String) : String :=
  if label == "tefas" then
    "İstikrarlı Türk yatırım fonu. Haftalık: %" ++ fmt a.weeklyChangePct ++ "."
  else if label == "bond" then
    "Güvenli liman / sabit gelir enstrümanı. Haftalık: %" ++ fmt a.weeklyChangePct ++ "."
  else if label == "commodity" then
    "Emtia pozisyonu — enflasyon koruması. Haftalık: %" ++ fmt a.weeklyChangePct ++ "."
  else if label == "bist" then
    "BIST hissesi, güçlü haftalık momentum: %" ++ fmt a.weeklyChangePct ++ "."
  else if label == "etf" then
    "Geniş endeks ETF fonu, çeşitlendirilmiş maruz kalım. Haftalık: %" ++ fmt a.weeklyChangePct ++ "."
  else if label == "crypto" then
    "Kripto varlık, yüksek potansiyel. Haftalık: %" ++ fmt a.weeklyChangePct ++ "."
  else
    "US hissesi, güçlü haftalık getiri: %" ++ fmt a.weeklyChangePct ++ "."

/-- Fixed risk disclaimer keyed by risk level. -/
def riskNoteFor : RiskLevel → String
  | .high =>
    "Yüksek riskli portföy. Yüksek volatilite beklenmektedir. Sadece kaybetmeyi göze alabileceğiniz tutarları yatırın."
  | .medium =>
    "Dengeli portföy. Orta düzey volatilite ile istikrarlı büyüme hedeflenmektedir."
  | .low =>
    "Düşük riskli, korumacı portföy. Sermaye koruması ön plandadır."

/-- Risk label used inside the summary template. -/
def riskLabelFor : RiskLevel → String
  | .low => "Düşük"
  | .medium => "Orta"
  | .high => "Yüksek"

/-- generateAnalysis: the deterministic rule-based engine. The current
timestamp string is an explicit argument. Reading sorted[0] and
sorted[sorted.length - 1] inside the summary template throws a TypeError
on an empty feed, modelled by the error branch of the final match. -/
def generateAnalysis (assets : List Asset) (targetReturn : ℚ)
    (riskLevel : RiskLevel) (timestamp : String) :
    Except EngineFailure AnalysisResult :=
  let sorted := sortByChangeDesc assets
  let gainers := sorted.filter (fun a => 0 < a.weeklyChangePct)
  let losers := sorted.filter (fun a => a.weeklyChangePct < 0)
  let weightedPicks := weightedPicksOf assets riskLevel
  let normalised := normaliseAllocations weightedPicks
  let recommendations : List PortfolioRecommendation :=
    normalised.map (fun p =>
      { symbol := p.1.asset.symbol
        name := p.1.asset.name
        allocation := (p.2 : ℚ)
        rationale := rationaleFor p.1.asset p.1.label })
  let avgReturn : ℚ :=
    recommendations.foldl (fun sum r =>
      sum + (match assets.find? (fun a => a.symbol == r.symbol) with
        | some a => a.weeklyChangePct * r.allocation / 100
        | none => 0)) 0
  match sorted.head?, sorted.getLast? with
  | some best, some worst =>
    let summary :=
      "Bu hafta piyasa genelinde "
        ++ (if losers.length < gainers.length then "pozitif" else "karışık")
        ++ " bir seyir gözlemlenmektedir. " ++ toString gainers.length
        ++ " enstrüman yükselirken, " ++ toString losers.length
        ++ " enstrüman düşüş göstermiştir. **" ++ best.symbol
        ++ "** (+%" ++ fmt best.weeklyChangePct ++ ") en güçlü, **"
        ++ worst.symbol ++ "** (%" ++ fmt worst.weeklyChangePct
        ++ ") ise en zayıf performansı sergiledi. Önerilen **"
        ++ riskLabelFor riskLevel
        ++ "** risk profilli portföyün ağırlıklı haftalık getiri beklentisi **%"
        ++ fmt avgReturn ++ "** (USD bazlı aylık hedef: %" ++ fmt targetReturn ++ ")."
        ++ (if avgReturn < targetReturn / (433/100) then
              " Mevcut piyasa koşulları hedefin altında kalabilir — risk toleransınızı gözden geçirin."
            else "")
    .ok
      { summary := summary
        recommendations := recommendations
        riskNote := riskNoteFor riskLevel
        timestamp := timestamp
        whyNow := none
        risks := none
        opportunities := none
        isAiGenerated := some false }
  | _, _ => .error .typeError

/-! AI-augmented engine (analysisEngine.ts, generateClaudeAnalysis). -/

/-- Parsed JSON object extracted from the model response. An absent or
non-string summary is modelled by none together with the empty string
(both fail the JavaScript falsiness check); a recommendations value that
is not an array is modelled by none. -/
structure ParsedAiResponse where
  summary : Option String
  recommendations : Option (List PortfolioRecommendation)
  riskNote : Option String
  whyNow : Option String
  risks : Option String
  opportunities : Option String
deriving DecidableEq

/-- Body of the proxy HTTP response, as far as the validation pipeline
distinguishes it: no balanced JSON object in the text, a JSON parse
failure, or a parsed object. -/
inductive AiBody
  | noJson
  | badJson
  | parsed (p : ParsedAiResponse)
deriving DecidableEq

/-- Correction step for an out-of-tolerance allocation sum: rescale every
entry except the last by 100/total, rounding, and give the last entry the
remainder to 100. -/
def rescaleRecs (recs : List PortfolioRecommendation) :
    List PortfolioRecommendation :=
  let totalAlloc := (recs.map PortfolioRecommendation.allocation).sum
  let factor := 100 / totalAlloc
  match recs.getLast? with
  | none => []
  | some lastR =>
    let firstPart := recs.dropLast
    let allocated := (firstPart.map (fun r => (jsRound (r.allocation * factor) : ℚ))).sum
    firstPart.map (fun r => { r with allocation := (jsRound (r.allocation * factor) : ℚ) })
      ++ [{ lastR with allocation := 100 - allocated }]

/-- Validation and normalisation of a 2xx response body (the remainder of
the try block after the HTTP status check): JSON extraction failure, parse
failure, a falsy summary, a non-array or empty recommendations value each
raise an error that the catch turns into the silent rule-based fallback;
otherwise the allocations are corrected if out of tolerance and the model
narrative is carried through with isAiGenerated set. -/
def claudeValidate (body : AiBody) (assets : List Asset) (targetReturn : ℚ)
    (riskLevel : RiskLevel) (timestamp : String) :
    Except EngineFailure AnalysisResult :=
  match body with
  | .noJson => generateAnalysis assets targetReturn riskLevel timestamp
  | .badJson => generateAnalysis assets targetReturn riskLevel timestamp
  | .parsed p =>
    if p.summary.getD "" = "" then
      generateAnalysis assets targetReturn riskLevel timestamp
    else
      match p.recommendations with
      | none => generateAnalysis assets targetReturn riskLevel timestamp
      | some recs =>
        if recs.isEmpty then
          generateAnalysis assets targetReturn riskLevel timestamp
        else
          let totalAlloc := (recs.map PortfolioRecommendation.allocation).sum
          let recs2 :=
            if 5 < |totalAlloc - 100| then rescaleRecs recs else recs
          .ok
            { summary := p.summary.getD ""
              recommendations := recs2
              riskNote := p.riskNote.getD ""
              timestamp := timestamp
              whyNow := p.whyNow
              risks := p.risks
              opportunities := p.opportunities
              isAiGenerated := some true }

/-- generateClaudeAnalysis: the AI-augmented engine, as a function of the
configured-credential flag and the proxy response (status plus body).
Thrown errors become the error branch of Except; every catch-and-fall-back
path returns the rule-based result for the same inputs. The two timestamps
taken in the source are abstracted to the one timestamp argument. -/
def generateClaudeAnalysis (hasKey : Bool) (status : Nat) (body : AiBody)
    (assets : List Asset) (targetReturn : ℚ) (riskLevel : RiskLevel)
    (timestamp : String) : Except EngineFailure AnalysisResult :=
  if !hasKey then generateAnalysis assets targetReturn riskLevel timestamp
  else if ¬(200 ≤ status ∧ status < 300) then
    if status = 401 then .error .claudeKeyInvalid
    else if status = 429 then .error .claudeRateLimit
    else generateAnalysis assets targetReturn riskLevel timestamp
  else claudeValidate body assets targetReturn riskLevel timestamp

/-- Recommendations of an engine outcome; the empty list for a thrown
error (observation helper, used to state the claims). -/
def engineRecs (e : Except EngineFailure AnalysisResult) :
    List PortfolioRecommendation :=
  match e with
  | .ok r => r.recommendations
  | .error _ => []

/-- Validation conditions of the pipeline that trigger the silent
fallback for a 2xx response: no JSON object, a parse error, a falsy
summary, a non-array recommendations value, or an empty array. -/
def aiValidationFails : AiBody → Bool
  | .noJson => true
  | .badJson => true
  | .parsed p =>
    p.summary.getD "" == ""
      || (match p.recommendations with
          | none => true
          | some recs => recs.isEmpty)

/-! Helper lemmas about takeLast, used for the snapshot FIFO bound. -/

theorem take_append_take {α : Type} (n : Nat) (a b : List α) :
    (a ++ b.take n).take n = (a ++ b).take n := by
  rw [List.take_append_eq_append_take, List.take_append_eq_append_take,
    List.take_take, Nat.min_eq_left (Nat.sub_le n a.length)]

theorem takeLast_takeLast_append {α : Type} (n : Nat) (l m : List α) :
    takeLast n (takeLast n l ++ m) = takeLast n (l ++ m) := by
  unfold takeLast
  rw [List.reverse_append, List.reverse_reverse, List.reverse_append,
    take_append_take]

theorem foldl_saveSnapshot (ss : List PortfolioSnapshot) :
    ∀ (h : List PortfolioSnapshot) (s : PortfolioSnapshot),
    List.foldl saveSnapshot h (s :: ss)
      = takeLast MAX_SNAPSHOTS (h ++ (s :: ss)) := by
  induction ss with
  | nil => intro h s; rfl
  | cons s2 ss ih =>
    intro h s
    rw [List.foldl_cons, ih (saveSnapshot h s) s2]
    show takeLast MAX_SNAPSHOTS (takeLast MAX_SNAPSHOTS (h ++ [s]) ++ (s2 :: ss))
      = takeLast MAX_SNAPSHOTS (h ++ (s :: s2 :: ss))
    rw [takeLast_takeLast_append, List.append_assoc]
    rfl

/-- C8: sequentially saving eleven snapshots into any stored history leaves
exactly the last ten of them: the first of the eleven has been evicted and
the most recently saved one is the final element. -/
theorem snapshot_fifo_bound (h : List PortfolioSnapshot)
    (s1 s2 s3 s4 s5 s6 s7 s8 s9 s10 s11 : PortfolioSnapshot) :
    List.foldl saveSnapshot h [s1, s2, s3, s4, s5, s6, s7, s8, s9, s10, s11]
        = [s2, s3, s4, s5, s6, s7, s8, s9, s10, s11]
      ∧ (List.foldl saveSnapshot h
          [s1, s2, s3, s4, s5, s6, s7, s8, s9, s10, s11]).length = 10
      ∧ (List.foldl saveSnapshot h
          [s1, s2, s3, s4, s5, s6, s7, s8, s9, s10, s11]).getLast?
          = some s11 := by
  have key : List.foldl saveSnapshot h
      [s1, s2, s3, s4, s5, s6, s7, s8, s9, s10, s11]
      = [s2, s3, s4, s5, s6, s7, s8, s9, s10, s11] := by
    rw [foldl_saveSnapshot]
    show takeLast MAX_SNAPSHOTS
      (h ++ [s1, s2, s3, s4, s5, s6, s7, s8, s9, s10, s11]) = _
    unfold takeLast MAX_SNAPSHOTS
    rw [List.reverse_append, List.take_append_of_le_length (by simp)]
    rfl
  refine ⟨key, ?_, ?_⟩ <;> rw [key] <;> rfl

/-- C2: on the empty asset universe the rule-based engine does not return
the minimally valid empty result the specification requires; it fails with
the TypeError raised while the summary template reads the best performer of
an empty sorted list (at every risk level and any target return). -/
theorem empty_universe_throws :
    generateAnalysis [] 5 .low "t" = .error .typeError
      ∧ generateAnalysis [] 5 .medium "t" = .error .typeError
      ∧ generateAnalysis [] 5 .high "t" = .error .typeError
      ∧ generateAnalysis [] 12 .medium "u" = .error .typeError := by
  refine ⟨rfl, rfl, rfl, rfl⟩

/-! RSI lemmas. -/

theorem changesOf_length : ∀ (l : List ℚ), (changesOf l).length = l.length - 1 := by
  intro l
  induction l with
  | nil => rfl
  | cons a t ih =>
    cases t with
    | nil => rfl
    | cons b t2 =>
      show ((b - a) :: changesOf (b :: t2)).length = (b :: t2).length
      simp only [List.length_cons]
      rw [ih]
      simp

theorem chain_le_changes : ∀ (l : List ℚ), l.Chain' (· ≤ ·) →
    ∀ c ∈ changesOf l, 0 ≤ c := by
  intro l
  induction l with
  | nil => intro _ c hc; simp [changesOf] at hc
  | cons a t ih =>
    cases t with
    | nil => intro _ c hc; simp [changesOf] at hc
    | cons b t2 =>
      intro hch c hc
      rw [List.chain'_cons] at hch
      have hc2 : c ∈ (b - a) :: changesOf (b :: t2) := hc
      rcases List.mem_cons.mp hc2 with h | h
      · subst h; linarith [hch.1]
      · exact ih hch.2 c h

theorem chain_gt_changes : ∀ (l : List ℚ), l.Chain' (· > ·) →
    ∀ c ∈ changesOf l, c < 0 := by
  intro l
  induction l with
  | nil => intro _ c hc; simp [changesOf] at hc
  | cons a t ih =>
    cases t with
    | nil => intro _ c hc; simp [changesOf] at hc
    | cons b t2 =>
      intro hch c hc
      rw [List.chain'_cons] at hch
      have hc2 : c ∈ (b - a) :: changesOf (b :: t2) := hc
      rcases List.mem_cons.mp hc2 with h | h
      · subst h; have : b < a := hch.1; linarith
      · exact ih hch.2 c h

theorem seed_loss_fixed : ∀ (cs : List ℚ), (∀ c ∈ cs, 0 ≤ c) →
    ∀ g l : ℚ, (cs.foldl seedStep (g, l)).2 = l := by
  intro cs
  induction cs with
  | nil => intro _ g l; rfl
  | cons c t ih =>
    intro h g l
    have hc : 0 ≤ c := h c (List.mem_cons_self c t)
    have ht : ∀ x ∈ t, 0 ≤ x := fun x hx => h x (List.mem_cons_of_mem c hx)
    rw [List.foldl_cons]
    by_cases hpos : 0 < c
    · rw [show seedStep (g, l) c = (g + c, l) from by simp [seedStep, hpos]]
      exact ih ht (g + c) l
    · have hc0 : c = 0 := le_antisymm (not_lt.mp hpos) hc
      rw [show seedStep (g, l) c = (g, l) from by
        simp [seedStep, hpos, hc0]]
      exact ih ht g l

theorem wilder_loss_zero (p : ℚ) : ∀ (cs : List ℚ), (∀ c ∈ cs, 0 ≤ c) →
    ∀ g : ℚ, ((cs.foldl (wilderStep p) (g, 0)).2 = 0) := by
  intro cs
  induction cs with
  | nil => intro _ g; rfl
  | cons c t ih =>
    intro h g
    have hc : 0 ≤ c := h c (List.mem_cons_self c t)
    have ht : ∀ x ∈ t, 0 ≤ x := fun x hx => h x (List.mem_cons_of_mem c hx)
    rw [List.foldl_cons]
    rw [show wilderStep p (g, 0) c
        = ((g * (p - 1) + (if 0 < c then c else 0)) / p, 0) from by
      simp [wilderStep, not_lt.mpr hc]]
    exact ih ht _

theorem seed_all_loss : ∀ (cs : List ℚ), (∀ c ∈ cs, c < 0) →
    ∀ g l : ℚ, cs.foldl seedStep (g, l) = (g, l + (cs.map (fun c => |c|)).sum) := by
  intro cs
  induction cs with
  | nil => intro _ g l; simp
  | cons c t ih =>
    intro h g l
    have hc : c < 0 := h c (List.mem_cons_self c t)
    have ht : ∀ x ∈ t, x < 0 := fun x hx => h x (List.mem_cons_of_mem c hx)
    rw [List.foldl_cons]
    rw [show seedStep (g, l) c = (g, l + |c|) from by
      simp [seedStep, not_lt.mpr (le_of_lt hc)]]
    rw [ih ht g (l + |c|)]
    simp [add_assoc]

theorem sum_abs_pos : ∀ (cs : List ℚ), cs ≠ [] → (∀ c ∈ cs, c < 0) →
    0 < (cs.map (fun c => |c|)).sum := by
  intro cs hne h
  cases cs with
  | nil => exact absurd rfl hne
  | cons c t =>
    have hc : 0 < |c| := abs_pos.mpr (ne_of_lt (h c (List.mem_cons_self c t)))
    have ht : 0 ≤ (t.map (fun c => |c|)).sum := by
      apply List.sum_nonneg
      intro x hx
      rcases List.mem_map.mp hx with ⟨y, _, rfl⟩
      exact abs_nonneg y
    simp only [List.map_cons, List.sum_cons]
    linarith

theorem wilder_all_loss (p : ℚ) (hp : 1 < p) : ∀ (cs : List ℚ),
    (∀ c ∈ cs, c < 0) → ∀ l : ℚ, 0 < l →
    (cs.foldl (wilderStep p) (0, l)).1 = 0
      ∧ 0 < (cs.foldl (wilderStep p) (0, l)).2 := by
  intro cs
  induction cs with
  | nil => intro _ l hl; exact ⟨rfl, hl⟩
  | cons c t ih =>
    intro h l hl
    have hc : c < 0 := h c (List.mem_cons_self c t)
    have ht : ∀ x ∈ t, x < 0 := fun x hx => h x (List.mem_cons_of_mem c hx)
    have hp0 : 0 < p := lt_trans one_pos hp
    rw [List.foldl_cons]
    rw [show wilderStep p (0, l) c = (0, (l * (p - 1) + |c|) / p) from by
      simp [wilderStep, hc, not_lt.mpr (le_of_lt hc), zero_mul, zero_add,
        zero_div]]
    apply ih ht
    apply div_pos _ hp0
    have h1 : 0 < l * (p - 1) := mul_pos hl (by linarith)
    have h2 : 0 < |c| := abs_pos.mpr (ne_of_lt hc)
    linarith

/-- C6: on a price series of length at least 15 with no decreases the
14-period RSI is exactly 100, and on a strictly decreasing series it is
exactly 0. -/
theorem rsi_boundary (prices : List ℚ) (hlen : 15 ≤ prices.length) :
    (prices.Chain' (· ≤ ·) → calculateRSI prices 14 = some 100)
    ∧ (prices.Chain' (· > ·) → calculateRSI prices 14 = some 0) := by
  have hnotlt : ¬ prices.length < 14 + 1 := by omega
  constructor
  · intro hch
    have hc : ∀ c ∈ changesOf prices, 0 ≤ c := chain_le_changes prices hch
    have hctake : ∀ c ∈ (changesOf prices).take 14, 0 ≤ c :=
      fun c hcm => hc c (List.take_subset 14 _ hcm)
    have hcdrop : ∀ c ∈ (changesOf prices).drop 14, 0 ≤ c :=
      fun c hcm => hc c (List.drop_subset 14 _ hcm)
    unfold calculateRSI
    rw [if_neg hnotlt]
    dsimp only
    have hseed := seed_loss_fixed _ hctake 0 0
    rw [hseed]
    rw [show (0 : ℚ) / ((14 : ℕ) : ℚ) = 0 from by norm_num]
    rw [wilder_loss_zero _ _ hcdrop _]
    rfl
  · intro hch
    have hc : ∀ c ∈ changesOf prices, c < 0 := chain_gt_changes prices hch
    have hctake : ∀ c ∈ (changesOf prices).take 14, c < 0 :=
      fun c hcm => hc c (List.take_subset 14 _ hcm)
    have hcdrop : ∀ c ∈ (changesOf prices).drop 14, c < 0 :=
      fun c hcm => hc c (List.drop_subset 14 _ hcm)
    have hlen2 : (changesOf prices).length = prices.length - 1 :=
      changesOf_length prices
    have htne : (changesOf prices).take 14 ≠ [] := by
      apply List.ne_nil_of_length_pos
      rw [List.length_take]
      omega
    have hsum : 0 < (((changesOf prices).take 14).map (fun c => |c|)).sum :=
      sum_abs_pos _ htne hctake
    unfold calculateRSI
    rw [if_neg hnotlt]
    dsimp only
    rw [seed_all_loss _ hctake 0 0]
    have hL : 0 < (0 + (((changesOf prices).take 14).map (fun c => |c|)).sum)
        / ((14 : ℕ) : ℚ) := by
      apply div_pos (by linarith)
      norm_num
    have hzero : ((0, 0 + (((changesOf prices).take 14).map (fun c => |c|)).sum).1 : ℚ)
        / ((14 : ℕ) : ℚ) = 0 := by norm_num
    rw [hzero]
    obtain ⟨h1, h2⟩ := wilder_all_loss ((14 : ℕ) : ℚ) (by norm_num) _ hcdrop _ hL
    rw [if_neg (ne_of_gt h2)]
    rw [h1]
    rw [show (0 : ℚ) / (((changesOf prices).drop 14).foldl
        (wilderStep ((14 : ℕ) : ℚ))
        (0, (0 + (((changesOf prices).take 14).map (fun c => |c|)).sum)
          / ((14 : ℕ) : ℚ))).2 = 0 from zero_div _]
    decide

/-- Concrete strictly rising 16-point price series. -/
def risingPrices : List ℚ :=
  [1, 2, 3, 4, 5, 6, 7, 8, 9, 10, 11, 12, 13, 14, 15, 16]

/-- Concrete strictly falling 16-point price series. -/
def fallingPrices : List ℚ :=
  [16, 15, 14, 13, 12, 11, 10, 9, 8, 7, 6, 5, 4, 3, 2, 1]

theorem rsi_boundary_witness :
    calculateRSI risingPrices 14 = some 100
      ∧ calculateRSI fallingPrices 14 = some 0 :=
  ⟨(rsi_boundary risingPrices (by decide)).1
      (by norm_num [risingPrices, List.chain'_cons]),
   (rsi_boundary fallingPrices (by decide)).2
      (by norm_num [fallingPrices, List.chain'_cons])⟩

/-! Lemmas about the symbol-keyed asset map. -/

theorem assetMapGet_some {assets : List Asset} {s : String} {a : Asset}
    (h : assetMapGet assets s = some a) : a ∈ assets ∧ a.symbol = s := by
  unfold assetMapGet at h
  refine ⟨List.mem_reverse.mp (List.mem_of_find?_eq_some h), ?_⟩
  have hp := List.find?_some h
  simpa using hp

theorem assetMapGet_isSome {assets : List Asset} {s : String} {a : Asset}
    (ha : a ∈ assets) (hs : a.symbol = s) : (assetMapGet assets s).isSome := by
  unfold assetMapGet
  rw [List.find?_isSome]
  exact ⟨a, List.mem_reverse.mpr ha, by simp [hs]⟩

theorem assetMapGet_nodup {assets : List Asset} {a : Asset}
    (hnd : (assets.map Asset.symbol).Nodup) (ha : a ∈ assets) :
    assetMapGet assets a.symbol = some a := by
  obtain ⟨b, hb⟩ := Option.isSome_iff_exists.mp (assetMapGet_isSome ha rfl)
  obtain ⟨hbm, hbs⟩ := assetMapGet_some hb
  have hba : b = a := List.inj_on_of_nodup_map hnd hbm ha hbs
  rw [hb, hba]

/-- Snapshot fixture for the concrete performance round trip: one line at
entry price 100 with allocation 50. -/
def perfSnapFixture : PortfolioSnapshot :=
  { id := "1", timestamp := 0, formattedDate := "d"
    recommendations :=
      [{ symbol := "X", name := "X", allocation := 50, priceAtRecommendation := 100 }]
    targetReturn := 5, riskLevel := "medium", dataSource := "live" }

/-- Current asset fixture for the concrete performance round trip: the
same symbol now priced 110. -/
def perfAssetFixture : Asset :=
  { symbol := "X", name := "X", type := "stock", category := "bist"
    price := 110, weeklyChangePct := 1 }

/-- C10: calculatePerformance yields a metric only for lines whose symbol
is matched by the current feed, yields one for every matched line, sets
hasCurrentPrices exactly when some line matched, and on the concrete one
line instance (entry 100, current 110, allocation 50) returns change 10,
weighted contribution 5 and total PnL 5. -/
theorem performance_skip_and_roundtrip (snapshot : PortfolioSnapshot)
    (currentAssets : List Asset) (nowMs : ℤ)
    (hprice : ∀ line ∈ snapshot.recommendations,
      line.priceAtRecommendation ≠ 0) :
    (∀ m ∈ (calculatePerformance snapshot currentAssets nowMs).metrics,
        ∃ a ∈ currentAssets, a.symbol = m.symbol)
    ∧ (∀ line ∈ snapshot.recommendations,
        (∃ a ∈ currentAssets, a.symbol = line.symbol) →
        ∃ m ∈ (calculatePerformance snapshot currentAssets nowMs).metrics,
          m.symbol = line.symbol)
    ∧ ((calculatePerformance snapshot currentAssets nowMs).hasCurrentPrices
          = true
        ↔ ∃ line ∈ snapshot.recommendations, ∃ a ∈ currentAssets,
            a.symbol = line.symbol)
    ∧ ((calculatePerformance perfSnapFixture [perfAssetFixture] 0).metrics.map
        (fun m => (m.changePct, m.weightedContribution))) = [(10, 5)]
    ∧ (calculatePerformance perfSnapFixture [perfAssetFixture] 0).totalPnL
        = 5 := by
  have hchar : ∀ (rec : SnapshotRecommendation) (m : PerformanceMetric),
      performanceMetricFor currentAssets rec = some m →
      m.symbol = rec.symbol ∧ ∃ a ∈ currentAssets, a.symbol = rec.symbol := by
    intro rec m h
    unfold performanceMetricFor at h
    split at h
    · exact absurd h (by simp)
    · rename_i current hma
      split at h
      · exact absurd h (by simp)
      · obtain ⟨hmem, hsym⟩ := assetMapGet_some hma
        dsimp only at h
        obtain rfl := (Option.some.inj h).symm
        exact ⟨rfl, current, hmem, hsym⟩
  have hproduce : ∀ line ∈ snapshot.recommendations, ∀ a ∈ currentAssets,
      a.symbol = line.symbol →
      ∃ m, performanceMetricFor currentAssets line = some m
        ∧ m.symbol = line.symbol := by
    intro line hline a ha hsym
    have hz := hprice line hline
    obtain ⟨current, hcur⟩ :=
      Option.isSome_iff_exists.mp (assetMapGet_isSome ha hsym)
    have hres : performanceMetricFor currentAssets line = some
        { symbol := line.symbol
          name := line.name
          allocation := line.allocation
          priceAtRecommendation := line.priceAtRecommendation
          currentPrice := current.price
          changePct := round2 ((current.price - line.priceAtRecommendation)
            / line.priceAtRecommendation * 100)
          weightedContribution := round3
            (round2 ((current.price - line.priceAtRecommendation)
              / line.priceAtRecommendation * 100) * line.allocation / 100) } := by
      unfold performanceMetricFor
      rw [hcur]
      dsimp only
      rw [if_neg hz]
    exact ⟨_, hres, rfl⟩
  have hmet : (calculatePerformance snapshot currentAssets nowMs).metrics
      = snapshot.recommendations.filterMap (performanceMetricFor currentAssets) :=
    rfl
  have hne_iff : ∀ (l : List PerformanceMetric), (!l.isEmpty) = true ↔ l ≠ [] := by
    intro l; cases l <;> simp
  refine ⟨?_, ?_, ?_, by decide, by decide⟩
  · intro m hm
    rw [hmet] at hm
    obtain ⟨rec, _, hsome⟩ := List.mem_filterMap.mp hm
    obtain ⟨hsym, a, ha, has⟩ := hchar rec m hsome
    exact ⟨a, ha, by rw [has, hsym]⟩
  · intro line hline ⟨a, ha, hsym⟩
    obtain ⟨m, hsome, hmsym⟩ := hproduce line hline a ha hsym
    exact ⟨m, by rw [hmet]; exact List.mem_filterMap.mpr ⟨line, hline, hsome⟩,
      hmsym⟩
  · have hflag : (calculatePerformance snapshot currentAssets nowMs).hasCurrentPrices
        = !(snapshot.recommendations.filterMap
            (performanceMetricFor currentAssets)).isEmpty := rfl
    rw [hflag, hne_iff]
    constructor
    · intro hne
      obtain ⟨m, hm⟩ := List.exists_mem_of_ne_nil _ hne
      obtain ⟨rec, hrec, hsome⟩ := List.mem_filterMap.mp hm
      obtain ⟨_, a, ha, has⟩ := hchar rec m hsome
      exact ⟨rec, hrec, a, ha, has⟩
    · intro ⟨line, hline, a, ha, hsym⟩
      obtain ⟨m, hsome, _⟩ := hproduce line hline a ha hsym
      exact List.ne_nil_of_mem (List.mem_filterMap.mpr ⟨line, hline, hsome⟩)

theorem performance_skip_and_roundtrip_witness :
    ((calculatePerformance perfSnapFixture [perfAssetFixture] 0).metrics.map
        (fun m => (m.changePct, m.weightedContribution))) = [(10, 5)]
      ∧ (calculatePerformance perfSnapFixture [perfAssetFixture] 0).totalPnL
        = 5 :=
  ⟨(performance_skip_and_roundtrip perfSnapFixture [perfAssetFixture] 0
      (by decide)).2.2.2.1,
   (performance_skip_and_roundtrip perfSnapFixture [perfAssetFixture] 0
      (by decide)).2.2.2.2⟩

/-- Analysis fixture for the snapshot-join witness: two recommendation
lines, of which only the first has a feed match. -/
def snapAnalysisFixture : AnalysisResult :=
  { summary := "s"
    recommendations := [{ symbol := "X", name := "X", allocation := 60, rationale := "r" },
      { symbol := "Y", name := "Y", allocation := 40, rationale := "r" }]
    riskNote := "n", timestamp := "t", whyNow := none, risks := none
    opportunities := none, isAiGenerated := some false }

/-- Feed fixture for the snapshot-join witness: only symbol X, at a
positive price. -/
def snapFeedFixture : List Asset :=
  [{ symbol := "X", name := "X", type := "stock", category := "bist"
     price := 5, weeklyChangePct := 1 }]

/-- C9: with a duplicate-free feed, a recommendation line is persisted in
the snapshot exactly when the feed holds an asset of the same symbol with
a strictly positive price; every persisted line carries a positive entry
price, and the snapshot never has more lines than the analysis. -/
theorem snapshot_lossy_join (analysis : AnalysisResult) (assets : List Asset)
    (targetReturn : ℚ) (riskLevel dataSource idStr formattedDate : String)
    (nowMs : ℤ) (hnd : (assets.map Asset.symbol).Nodup) :
    (∀ line ∈ (buildSnapshotFromAnalysis analysis assets targetReturn
        riskLevel dataSource idStr nowMs formattedDate).recommendations,
        0 < line.priceAtRecommendation)
    ∧ (∀ rec ∈ analysis.recommendations,
        ((∃ a ∈ assets, a.symbol = rec.symbol ∧ 0 < a.price)
          ↔ rec.symbol ∈ ((buildSnapshotFromAnalysis analysis assets
              targetReturn riskLevel dataSource idStr nowMs
              formattedDate).recommendations.map
                SnapshotRecommendation.symbol)))
    ∧ (buildSnapshotFromAnalysis analysis assets targetReturn riskLevel
        dataSource idStr nowMs formattedDate).recommendations.length
        ≤ analysis.recommendations.length := by
  have hrec : (buildSnapshotFromAnalysis analysis assets targetReturn
      riskLevel dataSource idStr nowMs formattedDate).recommendations
      = (analysis.recommendations.map (snapLineFor assets)).filter
          (fun r => 0 < r.priceAtRecommendation) := rfl
  refine ⟨?_, ?_, ?_⟩
  · intro line hline
    rw [hrec] at hline
    simpa using List.of_mem_filter hline
  · intro rec hrecm
    constructor
    · intro ⟨a, ha, hsym, hpos⟩
      have hget : assetMapGet assets rec.symbol = some a := by
        rw [← hsym]; exact assetMapGet_nodup hnd ha
      have hline : (snapLineFor assets rec).priceAtRecommendation = a.price := by
        unfold snapLineFor
        rw [hget]
        rfl
      refine List.mem_map.mpr ⟨snapLineFor assets rec, ?_, rfl⟩
      rw [hrec]
      refine List.mem_filter.mpr ⟨List.mem_map_of_mem _ hrecm, ?_⟩
      rw [hline]
      simpa using hpos
    · intro hmem
      obtain ⟨line, hlinemem, hsymeq⟩ := List.mem_map.mp hmem
      rw [hrec] at hlinemem
      obtain ⟨hmm, hposb⟩ := List.mem_filter.mp hlinemem
      obtain ⟨rec2, hrec2, rfl⟩ := List.mem_map.mp hmm
      have hpos : 0 < (snapLineFor assets rec2).priceAtRecommendation := by
        simpa using hposb
      cases hget : assetMapGet assets rec2.symbol with
      | none =>
        have hz : (snapLineFor assets rec2).priceAtRecommendation = 0 := by
          unfold snapLineFor
          rw [hget]
          rfl
        rw [hz] at hpos
        exact absurd hpos (by norm_num)
      | some a =>
        obtain ⟨hmem2, hsym2⟩ := assetMapGet_some hget
        have hpr : (snapLineFor assets rec2).priceAtRecommendation = a.price := by
          unfold snapLineFor
          rw [hget]
          rfl
        refine ⟨a, hmem2, ?_, by rw [← hpr]; exact hpos⟩
        rw [hsym2]
        exact hsymeq
  · rw [hrec]
    calc ((analysis.recommendations.map (snapLineFor assets)).filter
          (fun r => 0 < r.priceAtRecommendation)).length
        ≤ (analysis.recommendations.map (snapLineFor assets)).length :=
          List.length_filter_le _ _
      _ = analysis.recommendations.length := List.length_map _ _

theorem snapshot_lossy_join_witness :
    (buildSnapshotFromAnalysis snapAnalysisFixture snapFeedFixture 5 "medium"
      "live" "1" 0 "d").recommendations.length
      ≤ snapAnalysisFixture.recommendations.length :=
  (snapshot_lossy_join snapAnalysisFixture snapFeedFixture 5 "medium" "live"
    "1" "d" 0 (by decide)).2.2

/-! Diff-engine lemmas. -/

theorem sortDiffs_perm (l : List RecommendationDiff) : (sortDiffs l).Perm l := by
  have key1 : (l.filter (fun d => !(actionOrder d.action == 0))).filter
      (fun d => actionOrder d.action == 1)
      = l.filter (fun d => actionOrder d.action == 1) := by
    rw [List.filter_filter]
    apply List.filter_congr
    intro d _
    cases d.action <;> rfl
  have key2 : (l.filter (fun d => !(actionOrder d.action == 0))).filter
      (fun d => !(actionOrder d.action == 1))
      = l.filter (fun d => actionOrder d.action == 2) := by
    rw [List.filter_filter]
    apply List.filter_congr
    intro d _
    cases d.action <;> rfl
  have hmid : ((l.filter (fun d => actionOrder d.action == 1))
      ++ (l.filter (fun d => actionOrder d.action == 2))).Perm
      (l.filter (fun d => !(actionOrder d.action == 0))) := by
    rw [← key1, ← key2]
    exact List.filter_append_perm _ _
  have h0 : ((l.filter (fun d => actionOrder d.action == 0))
      ++ (l.filter (fun d => !(actionOrder d.action == 0)))).Perm l :=
    List.filter_append_perm _ _
  have heq : sortDiffs l
      = l.filter (fun d => actionOrder d.action == 0)
        ++ ((l.filter (fun d => actionOrder d.action == 1))
          ++ (l.filter (fun d => actionOrder d.action == 2))) := by
    rw [sortDiffs, List.append_assoc]
  rw [heq]
  exact (hmid.append_left _).trans h0

theorem prevFind_none_iff (prevRecs : List PrevRec) (s : String) :
    prevRecs.find? (fun p => p.symbol == s) = none
      ↔ s ∉ prevRecs.map PrevRec.symbol := by
  rw [List.find?_eq_none]
  constructor
  · intro h hmem
    obtain ⟨p, hpmem, hps⟩ := List.mem_map.mp hmem
    exact h p hpmem (by simp [hps])
  · intro h p hpmem hbeq
    exact h (List.mem_map.mpr ⟨p, hpmem, by simpa using hbeq⟩)

theorem prevFind_some {prevRecs : List PrevRec} {s : String} {p0 : PrevRec}
    (h : prevRecs.find? (fun p => p.symbol == s) = some p0) :
    p0 ∈ prevRecs ∧ p0.symbol = s :=
  ⟨List.mem_of_find?_eq_some h, by simpa using List.find?_some h⟩

theorem inNew_iff (newList : List SnapshotRecommendation) (s : String) :
    newList.any (fun r => r.symbol == s) = true
      ↔ s ∈ newList.map SnapshotRecommendation.symbol := by
  rw [List.any_eq_true]
  constructor
  · rintro ⟨r, hr, hbeq⟩
    exact List.mem_map.mpr ⟨r, hr, by simpa using hbeq⟩
  · intro h
    obtain ⟨r, hr, hrs⟩ := List.mem_map.mp h
    exact ⟨r, hr, by simp [hrs]⟩

theorem newDiffFor_symbol (prevRecs : List PrevRec)
    (r : SnapshotRecommendation) :
    (newDiffFor prevRecs r).symbol = r.symbol := by
  unfold newDiffFor
  cases prevRecs.find? (fun p => p.symbol == r.symbol) <;> rfl

theorem map_symbol_newPart (prevRecs : List PrevRec) :
    ∀ (nl : List SnapshotRecommendation),
    (nl.map (newDiffFor prevRecs)).map RecommendationDiff.symbol
      = nl.map SnapshotRecommendation.symbol := by
  intro nl
  induction nl with
  | nil => rfl
  | cons r t ih =>
    simp only [List.map_cons, ih, newDiffFor_symbol]

theorem map_symbol_sellPart : ∀ (l : List PrevRec),
    (l.map sellDiffFor).map RecommendationDiff.symbol = l.map PrevRec.symbol := by
  intro l
  induction l with
  | nil => rfl
  | cons p t ih => simp only [List.map_cons, ih]; rfl

theorem diffs_mem_iff (snap : PortfolioSnapshot) (prevRecs : List PrevRec)
    (d : RecommendationDiff) :
    d ∈ (computePortfolioDiff snap prevRecs).diffs
      ↔ ((∃ r ∈ snap.recommendations, newDiffFor prevRecs r = d)
        ∨ (∃ p, p ∈ prevRecs.filter
            (fun p => !(snap.recommendations.any (fun r => r.symbol == p.symbol)))
          ∧ sellDiffFor p = d)) := by
  have hdiffs : (computePortfolioDiff snap prevRecs).diffs
      = sortDiffs ((snap.recommendations.map (newDiffFor prevRecs))
        ++ (prevRecs.filter
          (fun p => !(snap.recommendations.any
            (fun r => r.symbol == p.symbol)))).map sellDiffFor) := rfl
  rw [hdiffs, (sortDiffs_perm _).mem_iff, List.mem_append, List.mem_map,
    List.mem_map]

theorem diffs_symbols_perm (snap : PortfolioSnapshot) (prevRecs : List PrevRec) :
    ((computePortfolioDiff snap prevRecs).diffs.map
        RecommendationDiff.symbol).Perm
      (snap.recommendations.map SnapshotRecommendation.symbol
        ++ (prevRecs.filter
          (fun p => !(snap.recommendations.any
            (fun r => r.symbol == p.symbol)))).map PrevRec.symbol) := by
  have hdiffs : (computePortfolioDiff snap prevRecs).diffs
      = sortDiffs ((snap.recommendations.map (newDiffFor prevRecs))
        ++ (prevRecs.filter
          (fun p => !(snap.recommendations.any
            (fun r => r.symbol == p.symbol)))).map sellDiffFor) := rfl
  rw [hdiffs]
  have h1 := (sortDiffs_perm
    ((snap.recommendations.map (newDiffFor prevRecs))
      ++ (prevRecs.filter
        (fun p => !(snap.recommendations.any
          (fun r => r.symbol == p.symbol)))).map sellDiffFor)).map
    RecommendationDiff.symbol
  rwa [List.map_append, map_symbol_newPart, map_symbol_sellPart] at h1

/-- C7: with duplicate-free inputs, the diff lists every symbol of the
union of the two sets exactly once; an entry is NEW exactly when its
symbol is only in the new set, SELL (with delta the negated previous
allocation) exactly when only in the previous set, HOLD (with delta new
minus previous, flagged in changedSymbols exactly when the absolute delta
reaches 3) exactly when in both. -/
theorem diff_classification (snap : PortfolioSnapshot) (prevRecs : List PrevRec)
    (hn : (snap.recommendations.map SnapshotRecommendation.symbol).Nodup)
    (hp : (prevRecs.map PrevRec.symbol).Nodup) :
    (∀ s : String,
      s ∈ (computePortfolioDiff snap prevRecs).diffs.map
          RecommendationDiff.symbol
        ↔ (s ∈ snap.recommendations.map SnapshotRecommendation.symbol
            ∨ s ∈ prevRecs.map PrevRec.symbol))
    ∧ ((computePortfolioDiff snap prevRecs).diffs.map
        RecommendationDiff.symbol).Nodup
    ∧ (∀ d ∈ (computePortfolioDiff snap prevRecs).diffs,
        (d.action = .NEW
          ↔ (d.symbol ∈ snap.recommendations.map SnapshotRecommendation.symbol
            ∧ d.symbol ∉ prevRecs.map PrevRec.symbol))
        ∧ (d.action = .HOLD
          ↔ (d.symbol ∈ snap.recommendations.map SnapshotRecommendation.symbol
            ∧ d.symbol ∈ prevRecs.map PrevRec.symbol))
        ∧ (d.action = .SELL
          ↔ (d.symbol ∉ snap.recommendations.map SnapshotRecommendation.symbol
            ∧ d.symbol ∈ prevRecs.map PrevRec.symbol)))
    ∧ (∀ d ∈ (computePortfolioDiff snap prevRecs).diffs, ∀ p ∈ prevRecs,
        p.symbol = d.symbol →
        (d.action = .SELL → d.allocationDelta = some (-p.allocation))
        ∧ (∀ r ∈ snap.recommendations, r.symbol = d.symbol →
            d.action = .HOLD →
            (d.allocationDelta = some (r.allocation - p.allocation)
             ∧ (d.symbol ∈ (computePortfolioDiff snap prevRecs).changedSymbols
                 ↔ 3 ≤ |r.allocation - p.allocation|)))) := by
  have hchanged : (computePortfolioDiff snap prevRecs).changedSymbols
      = snap.recommendations.filterMap (changedSymbolFor prevRecs) := rfl
  have hQmem : ∀ p : PrevRec,
      p ∈ prevRecs.filter
        (fun p => !(snap.recommendations.any (fun r => r.symbol == p.symbol)))
      ↔ (p ∈ prevRecs
        ∧ p.symbol ∉ snap.recommendations.map SnapshotRecommendation.symbol) := by
    intro p
    rw [List.mem_filter]
    constructor
    · intro ⟨h1, h2⟩
      refine ⟨h1, fun hmem => ?_⟩
      rw [← inNew_iff] at hmem
      rw [hmem] at h2
      exact absurd h2 (by decide)
    · intro ⟨h1, h2⟩
      refine ⟨h1, ?_⟩
      cases hb : snap.recommendations.any (fun r => r.symbol == p.symbol) with
      | true => exact absurd ((inNew_iff _ _).mp hb) h2
      | false => rfl
  refine ⟨?_, ?_, ?_, ?_⟩
  · intro s
    rw [(diffs_symbols_perm snap prevRecs).mem_iff, List.mem_append]
    constructor
    · rintro (h | h)
      · exact Or.inl h
      · obtain ⟨p, hpf, rfl⟩ := List.mem_map.mp h
        exact Or.inr (List.mem_map.mpr ⟨p, ((hQmem p).mp hpf).1, rfl⟩)
    · rintro (h | h)
      · exact Or.inl h
      · by_cases hs : s ∈ snap.recommendations.map SnapshotRecommendation.symbol
        · exact Or.inl hs
        · obtain ⟨p, hpm, rfl⟩ := List.mem_map.mp h
          exact Or.inr (List.mem_map.mpr ⟨p, (hQmem p).mpr ⟨hpm, hs⟩, rfl⟩)
  · rw [(diffs_symbols_perm snap prevRecs).nodup_iff, List.nodup_append]
    refine ⟨hn, ?_, ?_⟩
    · exact ((List.filter_sublist _).map PrevRec.symbol).nodup hp
    · intro s hsn hsf
      obtain ⟨p, hpf, rfl⟩ := List.mem_map.mp hsf
      exact absurd hsn ((hQmem p).mp hpf).2
  · intro d hd
    rcases (diffs_mem_iff snap prevRecs d).mp hd with ⟨r, hr, heq⟩ | ⟨p, hpf, heq⟩
    · have hrs : r.symbol ∈ snap.recommendations.map SnapshotRecommendation.symbol :=
        List.mem_map.mpr ⟨r, hr, rfl⟩
      cases hf : prevRecs.find? (fun q => q.symbol == r.symbol) with
      | none =>
        obtain rfl : d = { symbol := r.symbol, name := r.name, allocation := r.allocation, action := .NEW, prevAllocation := none, allocationDelta := none } := by
          rw [← heq]; unfold newDiffFor; rw [hf]
        have hnotp := (prevFind_none_iff prevRecs r.symbol).mp hf
        exact ⟨⟨fun _ => ⟨hrs, hnotp⟩, fun _ => rfl⟩,
          ⟨fun h => (nomatch h), fun hb => absurd hb.2 hnotp⟩,
          ⟨fun h => (nomatch h), fun hb => absurd hb.2 hnotp⟩⟩
      | some p0 =>
        obtain rfl : d = { symbol := r.symbol, name := r.name, allocation := r.allocation, action := .HOLD, prevAllocation := some p0.allocation, allocationDelta := some (r.allocation - p0.allocation) } := by
          rw [← heq]; unfold newDiffFor; rw [hf]
        obtain ⟨hp0m, hp0s⟩ := prevFind_some hf
        have hps : r.symbol ∈ prevRecs.map PrevRec.symbol :=
          List.mem_map.mpr ⟨p0, hp0m, hp0s⟩
        exact ⟨⟨fun h => (nomatch h), fun hb => absurd hps hb.2⟩,
          ⟨fun _ => ⟨hrs, hps⟩, fun _ => rfl⟩,
          ⟨fun h => (nomatch h), fun hb => absurd hrs hb.1⟩⟩
    · obtain ⟨hpm, hpnot⟩ := (hQmem p).mp hpf
      obtain rfl : d = sellDiffFor p := heq.symm
      have hps : (sellDiffFor p).symbol ∈ prevRecs.map PrevRec.symbol :=
        List.mem_map.mpr ⟨p, hpm, rfl⟩
      exact ⟨⟨fun h => (nomatch h), fun hb => absurd hb.1 hpnot⟩,
        ⟨fun h => (nomatch h), fun hb => absurd hb.1 hpnot⟩,
        ⟨fun _ => ⟨hpnot, hps⟩, fun _ => rfl⟩⟩
  · intro d hd p hpm hpsym
    rcases (diffs_mem_iff snap prevRecs d).mp hd with ⟨r0, hr0, heq⟩ | ⟨p0, hp0f, heq⟩
    · cases hf : prevRecs.find? (fun q => q.symbol == r0.symbol) with
      | none =>
        obtain rfl : d = { symbol := r0.symbol, name := r0.name, allocation := r0.allocation, action := .NEW, prevAllocation := none, allocationDelta := none } := by
          rw [← heq]; unfold newDiffFor; rw [hf]
        refine ⟨fun h => (nomatch h), fun r hrm hrs h => (nomatch h)⟩
      | some p0 =>
        obtain rfl : d = { symbol := r0.symbol, name := r0.name, allocation := r0.allocation, action := .HOLD, prevAllocation := some p0.allocation, allocationDelta := some (r0.allocation - p0.allocation) } := by
          rw [← heq]; unfold newDiffFor; rw [hf]
        obtain ⟨hp0m, hp0s⟩ := prevFind_some hf
        obtain rfl : p = p0 :=
          List.inj_on_of_nodup_map hp hpm hp0m (by rw [hpsym, hp0s])
        refine ⟨fun h => (nomatch h), fun r hrm hrs _ => ?_⟩
        obtain rfl : r = r0 := List.inj_on_of_nodup_map hn hrm hr0 hrs
        refine ⟨rfl, ?_⟩
        rw [hchanged]
        constructor
        · intro hmemch
          obtain ⟨r2, hr2, hsome⟩ := List.mem_filterMap.mp hmemch
          unfold changedSymbolFor at hsome
          cases hf2 : prevRecs.find? (fun q => q.symbol == r2.symbol) with
          | none => rw [hf2] at hsome; exact nomatch hsome
          | some p2 =>
            rw [hf2] at hsome
            dsimp only at hsome
            by_cases hge : 3 ≤ |r2.allocation - p2.allocation|
            · rw [if_pos hge] at hsome
              have hr2s : r2.symbol = r.symbol := Option.some.inj hsome
              obtain rfl : r2 = r := List.inj_on_of_nodup_map hn hr2 hrm hr2s
              rw [hf] at hf2
              obtain rfl : p2 = p := (Option.some.inj hf2).symm
              exact hge
            · rw [if_neg hge] at hsome
              exact nomatch hsome
        · intro hge
          refine List.mem_filterMap.mpr ⟨r, hrm, ?_⟩
          unfold changedSymbolFor
          rw [hf]
          dsimp only
          rw [if_pos hge]
    · obtain rfl : d = sellDiffFor p0 := heq.symm
      obtain ⟨hp0m, _⟩ := (hQmem p0).mp hp0f
      obtain rfl : p = p0 := List.inj_on_of_nodup_map hp hpm hp0m hpsym
      exact ⟨fun _ => rfl, fun r hrm hrs h => (nomatch h)⟩

/-- New-snapshot fixture for the diff witness: X is NEW, Y is HOLD with
delta plus 10. -/
def diffSnapFixture : PortfolioSnapshot :=
  { id := "1", timestamp := 0, formattedDate := "d"
    recommendations := [{ symbol := "X", name := "X", allocation := 50, priceAtRecommendation := 10 },
      { symbol := "Y", name := "Y", allocation := 50, priceAtRecommendation := 10 }]
    targetReturn := 5, riskLevel := "medium", dataSource := "live" }

/-- Previous-recommendation fixture for the diff witness: Y is kept, Z is
dropped. -/
def diffPrevFixture : List PrevRec :=
  [{ symbol := "Y", name := "Y", allocation := 40 },
   { symbol := "Z", name := "Z", allocation := 10 }]

theorem diff_classification_witness :
    ((computePortfolioDiff diffSnapFixture diffPrevFixture).diffs.map
      RecommendationDiff.symbol).Nodup :=
  (diff_classification diffSnapFixture diffPrevFixture (by decide)
    (by decide)).2.1

/-! AI-engine lemmas. -/

theorem generateAnalysis_isAiGenerated (assets : List Asset) (targetReturn : ℚ)
    (riskLevel : RiskLevel) (timestamp : String) :
    ∀ r, generateAnalysis assets targetReturn riskLevel timestamp = .ok r →
    r.isAiGenerated = some false := by
  intro r hr
  unfold generateAnalysis at hr
  dsimp only at hr
  split at hr
  · obtain rfl := Except.ok.inj hr
    rfl
  · exact nomatch hr

theorem claudeValidate_error {body : AiBody} {assets : List Asset}
    {targetReturn : ℚ} {riskLevel : RiskLevel} {timestamp : String}
    {e : EngineFailure}
    (h : claudeValidate body assets targetReturn riskLevel timestamp = .error e) :
    generateAnalysis assets targetReturn riskLevel timestamp = .error e := by
  cases body with
  | noJson => exact h
  | badJson => exact h
  | parsed p =>
    unfold claudeValidate at h
    dsimp only at h
    by_cases hs : p.summary.getD "" = ""
    · rw [if_pos hs] at h
      exact h
    · rw [if_neg hs] at h
      rcases hrec : p.recommendations with _ | recs
      · rw [hrec] at h
        exact h
      · rw [hrec] at h
        cases recs with
        | nil => exact h
        | cons a t => exact nomatch h

theorem claudeValidate_fails (body : AiBody) (assets : List Asset)
    (targetReturn : ℚ) (riskLevel : RiskLevel) (timestamp : String)
    (hv : aiValidationFails body = true) :
    claudeValidate body assets targetReturn riskLevel timestamp
      = generateAnalysis assets targetReturn riskLevel timestamp := by
  cases body with
  | noJson => rfl
  | badJson => rfl
  | parsed p =>
    unfold claudeValidate
    dsimp only
    by_cases hs : p.summary.getD "" = ""
    · rw [if_pos hs]
    · rw [if_neg hs]
      unfold aiValidationFails at hv
      dsimp only at hv
      have hs2 : (p.summary.getD "" == "") = false := by
        cases hb : (p.summary.getD "" == "") with
        | true => exact absurd (by simpa using hb) hs
        | false => rfl
      rw [hs2, Bool.false_or] at hv
      rcases hrec : p.recommendations with _ | recs
      · rfl
      · rw [hrec] at hv
        cases recs with
        | nil => rfl
        | cons a t => exact Bool.noConfusion hv

/-- C4: with a configured credential, a 401 response propagates as the
invalid-credential error and a 429 as the rate-limit error, for every
response body; every other HTTP failure and every validation failure of a
2xx body silently yields the rule-based result for the same inputs, whose
provenance flag is false; and any error the engine surfaces is one of the
two distinguished errors or one the rule-based fallback itself raised. -/
theorem claude_error_propagation (status : Nat) (body : AiBody)
    (assets : List Asset) (targetReturn : ℚ) (riskLevel : RiskLevel)
    (timestamp : String) :
    (generateClaudeAnalysis true 401 body assets targetReturn riskLevel
        timestamp = .error .claudeKeyInvalid)
    ∧ (generateClaudeAnalysis true 429 body assets targetReturn riskLevel
        timestamp = .error .claudeRateLimit)
    ∧ (¬(200 ≤ status ∧ status < 300) → status ≠ 401 → status ≠ 429 →
        generateClaudeAnalysis true status body assets targetReturn riskLevel
          timestamp = generateAnalysis assets targetReturn riskLevel timestamp)
    ∧ (200 ≤ status → status < 300 → aiValidationFails body = true →
        generateClaudeAnalysis true status body assets targetReturn riskLevel
          timestamp = generateAnalysis assets targetReturn riskLevel timestamp)
    ∧ (∀ r, generateAnalysis assets targetReturn riskLevel timestamp = .ok r →
        r.isAiGenerated = some false)
    ∧ (∀ e, generateClaudeAnalysis true status body assets targetReturn
          riskLevel timestamp = .error e →
        (e = .claudeKeyInvalid ∨ e = .claudeRateLimit
          ∨ generateAnalysis assets targetReturn riskLevel timestamp
            = .error e)) := by
  have hshape : generateClaudeAnalysis true status body assets targetReturn
      riskLevel timestamp
      = if ¬(200 ≤ status ∧ status < 300) then
          (if status = 401 then Except.error EngineFailure.claudeKeyInvalid
           else if status = 429 then Except.error EngineFailure.claudeRateLimit
           else generateAnalysis assets targetReturn riskLevel timestamp)
        else claudeValidate body assets targetReturn riskLevel timestamp := rfl
  refine ⟨rfl, rfl, ?_, ?_, generateAnalysis_isAiGenerated _ _ _ _, ?_⟩
  · intro h h1 h2
    rw [hshape, if_pos h, if_neg h1, if_neg h2]
  · intro h1 h2 hv
    rw [hshape, if_neg (not_not_intro ⟨h1, h2⟩)]
    exact claudeValidate_fails body assets targetReturn riskLevel timestamp hv
  · intro e he
    rw [hshape] at he
    by_cases hok : 200 ≤ status ∧ status < 300
    · rw [if_neg (not_not_intro hok)] at he
      exact Or.inr (Or.inr (claudeValidate_error he))
    · rw [if_pos hok] at he
      by_cases h4 : status = 401
      · rw [if_pos h4] at he
        exact Or.inl (Except.error.inj he).symm
      · rw [if_neg h4] at he
        by_cases h9 : status = 429
        · rw [if_pos h9] at he
          exact Or.inr (Or.inl (Except.error.inj he).symm)
        · rw [if_neg h9] at he
          exact Or.inr (Or.inr he)

theorem claude_error_propagation_witness :
    (generateClaudeAnalysis true 500 .noJson [] 5 .medium "t"
        = generateAnalysis [] 5 .medium "t")
      ∧ (generateClaudeAnalysis true 200 .badJson [] 5 .medium "t"
        = generateAnalysis [] 5 .medium "t") :=
  ⟨(claude_error_propagation 500 .noJson [] 5 .medium "t").2.2.1
      (by decide) (by decide) (by decide),
   (claude_error_propagation 200 .badJson [] 5 .medium "t").2.2.2.1
      (by decide) (by decide) (by decide)⟩

theorem claudeValidate_success {p : ParsedAiResponse}
    {recs : List PortfolioRecommendation} (assets : List Asset)
    (targetReturn : ℚ) (riskLevel : RiskLevel) (timestamp : String)
    (hs : p.summary.getD "" ≠ "") (hr : p.recommendations = some recs)
    (hne : recs ≠ []) :
    claudeValidate (.parsed p) assets targetReturn riskLevel timestamp
      = .ok
        { summary := p.summary.getD ""
          recommendations :=
            if 5 < |(recs.map PortfolioRecommendation.allocation).sum - 100|
            then rescaleRecs recs else recs
          riskNote := p.riskNote.getD ""
          timestamp := timestamp
          whyNow := p.whyNow
          risks := p.risks
          opportunities := p.opportunities
          isAiGenerated := some true } := by
  have hie : recs.isEmpty = false := by
    cases recs with
    | nil => exact absurd rfl hne
    | cons a t => rfl
  unfold claudeValidate
  dsimp only
  rw [if_neg hs, hr]
  dsimp only
  rw [hie]
  rfl

theorem rescaleRecs_spec (recs : List PortfolioRecommendation)
    (hne : recs ≠ []) :
    ((rescaleRecs recs).map PortfolioRecommendation.allocation).sum = 100
    ∧ ((rescaleRecs recs).map PortfolioRecommendation.allocation).dropLast
        = recs.dropLast.map (fun r => (jsRound (r.allocation
            * (100 / (recs.map PortfolioRecommendation.allocation).sum)) : ℚ))
    ∧ (rescaleRecs recs).length = recs.length := by
  obtain ⟨lastR, hlast⟩ : ∃ l, recs.getLast? = some l := by
    cases recs with
    | nil => exact absurd rfl hne
    | cons a t => exact ⟨_, List.getLast?_eq_getLast _ (by simp)⟩
  have hres : rescaleRecs recs
      = recs.dropLast.map (fun r => { r with allocation := (jsRound (r.allocation
            * (100 / (recs.map PortfolioRecommendation.allocation).sum)) : ℚ) })
        ++ [{ lastR with allocation := 100
            - ((recs.dropLast.map (fun r => (jsRound (r.allocation
                * (100 / (recs.map PortfolioRecommendation.allocation).sum)) : ℚ))).sum) }] := by
    unfold rescaleRecs
    rw [hlast]
  have hmapfst : (recs.dropLast.map (fun r => { r with allocation := (jsRound (r.allocation
        * (100 / (recs.map PortfolioRecommendation.allocation).sum)) : ℚ) })).map
          PortfolioRecommendation.allocation
      = recs.dropLast.map (fun r => (jsRound (r.allocation
        * (100 / (recs.map PortfolioRecommendation.allocation).sum)) : ℚ)) := by
    rw [List.map_map]
    rfl
  refine ⟨?_, ?_, ?_⟩
  · rw [hres, List.map_append, List.sum_append, hmapfst]
    simp
  · rw [hres, List.map_append]
    have : ((recs.dropLast.map (fun r => { r with allocation := (jsRound (r.allocation
          * (100 / (recs.map PortfolioRecommendation.allocation).sum)) : ℚ) })).map
            PortfolioRecommendation.allocation
        ++ ([{ lastR with allocation := 100
            - ((recs.dropLast.map (fun r => (jsRound (r.allocation
                * (100 / (recs.map PortfolioRecommendation.allocation).sum)) : ℚ))).sum) }].map
              PortfolioRecommendation.allocation)).dropLast
        = (recs.dropLast.map (fun r => { r with allocation := (jsRound (r.allocation
          * (100 / (recs.map PortfolioRecommendation.allocation).sum)) : ℚ) })).map
            PortfolioRecommendation.allocation := by
      apply List.dropLast_concat
    rw [this, hmapfst]
  · rw [hres]
    rw [List.length_append, List.length_map, List.length_dropLast]
    have : recs.length ≠ 0 := fun h => hne (List.eq_nil_of_length_eq_zero h)
    simp
    omega

/-- C5: when a validated AI response's allocation sum deviates from 100 by
more than 5, the returned recommendations are the rescaled ones: every
entry but the last is its allocation times 100 over the original sum,
rounded, and the whole list sums to exactly 100 with its length preserved.
The nonzero-sum hypothesis excludes the degenerate zero-total response, on
which the JavaScript rescaling arithmetic produces no number at all (NaN). -/
theorem ai_rescale_sum (status : Nat) (p : ParsedAiResponse)
    (recs : List PortfolioRecommendation) (assets : List Asset)
    (targetReturn : ℚ) (riskLevel : RiskLevel) (timestamp : String)
    (hs1 : 200 ≤ status) (hs2 : status < 300)
    (hsum : p.summary.getD "" ≠ "")
    (hrecs : p.recommendations = some recs)
    (hne : recs ≠ [])
    (hdev : 5 < |(recs.map PortfolioRecommendation.allocation).sum - 100|)
    (_hnz : (recs.map PortfolioRecommendation.allocation).sum ≠ 0) :
    engineRecs (generateClaudeAnalysis true status (.parsed p) assets
        targetReturn riskLevel timestamp) = rescaleRecs recs
    ∧ ((engineRecs (generateClaudeAnalysis true status (.parsed p) assets
        targetReturn riskLevel timestamp)).map
          PortfolioRecommendation.allocation).sum = 100
    ∧ ((engineRecs (generateClaudeAnalysis true status (.parsed p) assets
        targetReturn riskLevel timestamp)).map
          PortfolioRecommendation.allocation).dropLast
        = recs.dropLast.map (fun r => (jsRound (r.allocation
            * (100 / (recs.map PortfolioRecommendation.allocation).sum)) : ℚ))
    ∧ (engineRecs (generateClaudeAnalysis true status (.parsed p) assets
        targetReturn riskLevel timestamp)).length = recs.length := by
  have hshape : generateClaudeAnalysis true status (.parsed p) assets
      targetReturn riskLevel timestamp
      = if ¬(200 ≤ status ∧ status < 300) then
          (if status = 401 then Except.error EngineFailure.claudeKeyInvalid
           else if status = 429 then Except.error EngineFailure.claudeRateLimit
           else generateAnalysis assets targetReturn riskLevel timestamp)
        else claudeValidate (.parsed p) assets targetReturn riskLevel
          timestamp := rfl
  have hmain : engineRecs (generateClaudeAnalysis true status (.parsed p)
      assets targetReturn riskLevel timestamp) = rescaleRecs recs := by
    rw [hshape, if_neg (not_not_intro ⟨hs1, hs2⟩),
      claudeValidate_success assets targetReturn riskLevel timestamp hsum
        hrecs hne]
    show (if 5 < |(recs.map PortfolioRecommendation.allocation).sum - 100|
        then rescaleRecs recs else recs) = rescaleRecs recs
    rw [if_pos hdev]
  obtain ⟨hsum100, hdrop, hlen⟩ := rescaleRecs_spec recs hne
  exact ⟨hmain, by rw [hmain]; exact hsum100, by rw [hmain]; exact hdrop,
    by rw [hmain]; exact hlen⟩

/-- Response fixture for the rescale witness: two entries summing to 240,
far outside tolerance; rescaling yields 83 and 17. -/
def aiRecsFixture : List PortfolioRecommendation :=
  [{ symbol := "A", name := "A", allocation := 200, rationale := "r" },
   { symbol := "B", name := "B", allocation := 40, rationale := "r" }]

/-- Parsed response fixture wrapping aiRecsFixture with a valid summary. -/
def aiParsedFixture : ParsedAiResponse :=
  { summary := some "ok", recommendations := some aiRecsFixture
    riskNote := some "rn", whyNow := none, risks := none
    opportunities := none }

theorem ai_rescale_sum_witness :
    ((engineRecs (generateClaudeAnalysis true 200 (.parsed aiParsedFixture)
      [] 5 .medium "t")).map PortfolioRecommendation.allocation).sum = 100 :=
  (ai_rescale_sum 200 aiParsedFixture aiRecsFixture [] 5 .medium "t"
    (by decide) (by decide) (by decide) (by decide) (by decide) (by decide)
    (by decide)).2.1

/-! Rule-based engine lemmas. -/

theorem cast_list_sum (l : List ℤ) :
    (l.map (Int.cast : ℤ → ℚ)).sum = ((l.sum : ℤ) : ℚ) := by
  induction l with
  | nil => simp
  | cons a t ih => simp only [List.map_cons, List.sum_cons, ih, Int.cast_add]

theorem normaliseAllocations_fst (picks : List WPick) (hne : picks ≠ []) :
    (normaliseAllocations picks).map Prod.fst = picks := by
  have hlast : picks.getLast? = some (picks.getLast hne) :=
    List.getLast?_eq_getLast picks hne
  unfold normaliseAllocations
  rw [hlast]
  dsimp only
  rw [List.map_append, List.map_map]
  have hcomp : (Prod.fst ∘ fun p : WPick => (p, jsRound
      (p.pct / (picks.map WPick.pct).sum * 100))) = id := rfl
  rw [hcomp, List.map_id]
  show picks.dropLast ++ [picks.getLast hne] = picks
  exact List.dropLast_append_getLast hne

theorem normaliseAllocations_snd (picks : List WPick) (hne : picks ≠ []) :
    (normaliseAllocations picks).map Prod.snd
      = picks.dropLast.map
          (fun p => jsRound (p.pct / (picks.map WPick.pct).sum * 100))
        ++ [max 1 (100 - (picks.dropLast.map
          (fun p => jsRound (p.pct / (picks.map WPick.pct).sum * 100))).sum)] := by
  have hlast : picks.getLast? = some (picks.getLast hne) :=
    List.getLast?_eq_getLast picks hne
  unfold normaliseAllocations
  rw [hlast]
  dsimp only
  rw [List.map_append, List.map_map]
  rfl

/-- Concrete asset universe on which the low-risk blueprint yields one
tefas pick at raw weight 30 and the gainer fallback adds two zero-weight
us-stock picks: the first pick rounds to the full 100, the remainder is
floored at 1, and the allocations are 100, 0, 1 summing to 101. -/
def lowRiskCexAssets : List Asset :=
  [{ symbol := "T", name := "T", type := "fund", category := "tefas"
     price := 10, weeklyChangePct := 1 },
   { symbol := "A", name := "A", type := "stock", category := "us_stock"
     price := 10, weeklyChangePct := 2 },
   { symbol := "B", name := "B", type := "stock", category := "us_stock"
     price := 10, weeklyChangePct := 3/2 }]

/-- C1 counterexample: a non-trivial universe (three picks) whose
rule-based allocations are 100, 0 and 1 and sum to 101, not 100. -/
theorem allocation_sum_counterexample :
    (engineRecs (generateAnalysis lowRiskCexAssets 5 .low "t")).length = 3
      ∧ ((engineRecs (generateAnalysis lowRiskCexAssets 5 .low "t")).map
          PortfolioRecommendation.allocation) = [100, 0, 1]
      ∧ ((engineRecs (generateAnalysis lowRiskCexAssets 5 .low "t")).map
          PortfolioRecommendation.allocation).sum = 101 := by
  refine ⟨by decide, by decide, by decide⟩

/-- Parsed response fixture with a duplicated symbol that passes every
validation step (allocation sum is exactly 100, so no rescale occurs). -/
def dupParsedFixture : ParsedAiResponse :=
  { summary := some "ok"
    recommendations := some
      [{ symbol := "BTC", name := "Bitcoin", allocation := 50, rationale := "r1" },
       { symbol := "BTC", name := "Bitcoin", allocation := 50, rationale := "r2" }]
    riskNote := some "rn", whyNow := none, risks := none
    opportunities := none }

/-- C3 counterexample: the AI validation pipeline never checks symbol
uniqueness, so a successful model response with a duplicated symbol is
returned with the duplicate intact. -/
theorem ai_duplicate_symbols_counterexample :
    ¬ ((engineRecs (generateClaudeAnalysis true 200 (.parsed dupParsedFixture)
      [] 5 .medium "t")).map PortfolioRecommendation.symbol).Nodup := by
  decide

/-- Invariant of the pick loop: the chosen assets carry pairwise distinct
symbols, none of them already claimed, and the returned seen set is the
input one extended by exactly the chosen symbols. -/
theorem pick_spec : ∀ (pool : List Asset) (n : Nat) (seen : List String),
    ((pick pool n seen).1.map Asset.symbol).Nodup
    ∧ (∀ s ∈ (pick pool n seen).1.map Asset.symbol, s ∉ seen)
    ∧ (∀ s, s ∈ (pick pool n seen).2
        ↔ (s ∈ seen ∨ s ∈ (pick pool n seen).1.map Asset.symbol)) := by
  intro pool
  induction pool with
  | nil =>
    intro n seen
    cases n with
    | zero => exact ⟨List.nodup_nil, by simp [pick], by simp [pick]⟩
    | succ n => exact ⟨List.nodup_nil, by simp [pick], by simp [pick]⟩
  | cons a t ih =>
    intro n seen
    cases n with
    | zero => exact ⟨List.nodup_nil, by simp [pick], by simp [pick]⟩
    | succ n =>
      have heq0 : pick (a :: t) (n + 1) seen
          = if a.symbol ∈ seen then pick t (n + 1) seen
            else (a :: (pick t n (a.symbol :: seen)).1,
              (pick t n (a.symbol :: seen)).2) := rfl
      by_cases ha : a.symbol ∈ seen
      · have heq : pick (a :: t) (n + 1) seen = pick t (n + 1) seen := by
          rw [heq0, if_pos ha]
        rw [heq]
        exact ih (n + 1) seen
      · have heq : pick (a :: t) (n + 1) seen
            = (a :: (pick t n (a.symbol :: seen)).1,
               (pick t n (a.symbol :: seen)).2) := by
          rw [heq0, if_neg ha]
        obtain ⟨ih1, ih2, ih3⟩ := ih n (a.symbol :: seen)
        rw [heq]
        dsimp only
        refine ⟨?_, ?_, ?_⟩
        · rw [List.map_cons, List.nodup_cons]
          exact ⟨fun hmem => (ih2 a.symbol hmem) (List.mem_cons_self _ _), ih1⟩
        · intro s hs
          rw [List.map_cons, List.mem_cons] at hs
          rcases hs with rfl | hs
          · exact ha
          · exact fun hseen => (ih2 s hs) (List.mem_cons_of_mem _ hseen)
        · intro s
          rw [ih3 s, List.map_cons, List.mem_cons, List.mem_cons]
          tauto

/-- Invariant of the slot loop: the accumulated weighted picks carry
pairwise distinct symbols none of which were already claimed, and the
final seen set is the input one extended by exactly those symbols. -/
theorem buildSlots_spec : ∀ (slots : List Slot) (seen : List String),
    ((buildSlots slots seen).1.map (fun w => w.asset.symbol)).Nodup
    ∧ (∀ s ∈ (buildSlots slots seen).1.map (fun w => w.asset.symbol), s ∉ seen)
    ∧ (∀ s, s ∈ (buildSlots slots seen).2
        ↔ (s ∈ seen ∨ s ∈ (buildSlots slots seen).1.map
            (fun w => w.asset.symbol))) := by
  intro slots
  induction slots with
  | nil =>
    intro seen
    exact ⟨List.nodup_nil, by simp [buildSlots], by simp [buildSlots]⟩
  | cons slot rest ih =>
    intro seen
    have heq0 : buildSlots (slot :: rest) seen
        = ((pick slot.pool slot.count seen).1.map (fun a =>
            ⟨a, slot.pct / ((pick slot.pool slot.count seen).1.length : ℚ),
              slot.label⟩)
            ++ (buildSlots rest (pick slot.pool slot.count seen).2).1,
          (buildSlots rest (pick slot.pool slot.count seen).2).2) := rfl
    obtain ⟨hp1, hp2, hp3⟩ := pick_spec slot.pool slot.count seen
    obtain ⟨hr1, hr2, hr3⟩ := ih (pick slot.pool slot.count seen).2
    have hmaphere : ((pick slot.pool slot.count seen).1.map (fun a =>
        (⟨a, slot.pct / ((pick slot.pool slot.count seen).1.length : ℚ),
          slot.label⟩ : WPick))).map (fun w => w.asset.symbol)
        = (pick slot.pool slot.count seen).1.map Asset.symbol := by
      rw [List.map_map]
      rfl
    rw [heq0]
    dsimp only
    rw [List.map_append, hmaphere]
    refine ⟨?_, ?_, ?_⟩
    · rw [List.nodup_append]
      refine ⟨hp1, hr1, ?_⟩
      intro s hs hs2
      exact (hr2 s hs2) ((hp3 s).mpr (Or.inr hs))
    · intro s hs
      rw [List.mem_append] at hs
      rcases hs with hs | hs
      · exact hp2 s hs
      · exact fun hseen => (hr2 s hs) ((hp3 s).mpr (Or.inl hseen))
    · intro s
      rw [hr3 s, hp3 s, List.mem_append]
      tauto

/-- The weighted picks of one engine run carry pairwise distinct symbols:
the blueprint picks and the gainer-fallback extras all draw from one
shared seen set. -/
theorem weightedPicksOf_nodup (assets : List Asset) (riskLevel : RiskLevel) :
    ((weightedPicksOf assets riskLevel).map (fun w => w.asset.symbol)).Nodup := by
  obtain ⟨hb1, _, hb3⟩ := buildSlots_spec (slotsOf assets riskLevel) []
  unfold weightedPicksOf
  dsimp only
  by_cases hlen : (buildSlots (slotsOf assets riskLevel) []).1.length < 3
  · rw [if_pos hlen]
    obtain ⟨he1, he2, _⟩ := pick_spec
      ((sortByChangeDesc assets).filter (fun a => 0 < a.weeklyChangePct))
      (6 - (buildSlots (slotsOf assets riskLevel) []).1.length)
      (buildSlots (slotsOf assets riskLevel) []).2
    have hmapex : (((pick ((sortByChangeDesc assets).filter
        (fun a => 0 < a.weeklyChangePct))
        (6 - (buildSlots (slotsOf assets riskLevel) []).1.length)
        (buildSlots (slotsOf assets riskLevel) []).2).1.map
          (fun a => (⟨a, 0, "us"⟩ : WPick))).map (fun w => w.asset.symbol))
        = (pick ((sortByChangeDesc assets).filter
          (fun a => 0 < a.weeklyChangePct))
          (6 - (buildSlots (slotsOf assets riskLevel) []).1.length)
          (buildSlots (slotsOf assets riskLevel) []).2).1.map Asset.symbol := by
      rw [List.map_map]
      rfl
    rw [List.map_append, hmapex, List.nodup_append]
    refine ⟨hb1, he1, ?_⟩
    intro s hs hs2
    exact (he2 s hs2) ((hb3 s).mpr (Or.inr hs))
  · rw [if_neg hlen]
    exact hb1

theorem engineRecs_generateAnalysis (assets : List Asset) (targetReturn : ℚ)
    (riskLevel : RiskLevel) (timestamp : String) :
    engineRecs (generateAnalysis assets targetReturn riskLevel timestamp) = []
    ∨ engineRecs (generateAnalysis assets targetReturn riskLevel timestamp)
      = (normaliseAllocations (weightedPicksOf assets riskLevel)).map (fun p =>
          { symbol := p.1.asset.symbol, name := p.1.asset.name
            allocation := (p.2 : ℚ)
            rationale := rationaleFor p.1.asset p.1.label }) := by
  unfold generateAnalysis
  dsimp only
  split
  · right
    rfl
  · left
    rfl

/-- C3 amended: every result of the rule-based engine is free of duplicate
symbols (the global seen set guarantees it); the counterexample shows the
AI path returns the model recommendations verbatim, duplicates included. -/
theorem no_duplicate_symbols (assets : List Asset) (targetReturn : ℚ)
    (riskLevel : RiskLevel) (timestamp : String) :
    ((engineRecs (generateAnalysis assets targetReturn riskLevel
      timestamp)).map PortfolioRecommendation.symbol).Nodup := by
  rcases engineRecs_generateAnalysis assets targetReturn riskLevel timestamp
    with h | h
  · rw [h]
    exact List.nodup_nil
  · rw [h]
    by_cases hp : weightedPicksOf assets riskLevel = []
    · rw [hp]
      have hnil : normaliseAllocations [] = [] := rfl
      rw [hnil]
      exact List.nodup_nil
    · rw [List.map_map]
      have hcomp : (PortfolioRecommendation.symbol ∘ (fun p : WPick × ℤ =>
          ({ symbol := p.1.asset.symbol, name := p.1.asset.name
             allocation := (p.2 : ℚ)
             rationale := rationaleFor p.1.asset p.1.label }
            : PortfolioRecommendation)))
          = (fun w : WPick => w.asset.symbol) ∘ Prod.fst := rfl
      rw [hcomp, ← List.map_map, normaliseAllocations_fst _ hp]
      exact weightedPicksOf_nodup assets riskLevel

theorem sum_with_remainder (R : List ℤ) :
    ((R.map (Int.cast : ℤ → ℚ))
        ++ ([max 1 (100 - R.sum)].map (Int.cast : ℤ → ℚ))).sum
      = (R.map (Int.cast : ℤ → ℚ)).sum
        + max 1 (100 - (R.map (Int.cast : ℤ → ℚ)).sum)
    ∧ (∀ q ∈ (R.map (Int.cast : ℤ → ℚ))
        ++ ([max 1 (100 - R.sum)].map (Int.cast : ℤ → ℚ)), q.den = 1)
    ∧ ((R.map (Int.cast : ℤ → ℚ)).sum ≤ 99 →
        ((R.map (Int.cast : ℤ → ℚ))
          ++ ([max 1 (100 - R.sum)].map (Int.cast : ℤ → ℚ))).sum = 100)
    ∧ ((R.map (Int.cast : ℤ → ℚ))
        ++ ([max 1 (100 - R.sum)].map (Int.cast : ℤ → ℚ))).dropLast
      = R.map (Int.cast : ℤ → ℚ) := by
  have h1 : (R.map (Int.cast : ℤ → ℚ)).sum = ((R.sum : ℤ) : ℚ) :=
    cast_list_sum R
  have hsing : ([max 1 (100 - R.sum)].map (Int.cast : ℤ → ℚ))
      = [((max 1 (100 - R.sum) : ℤ) : ℚ)] := rfl
  refine ⟨?_, ?_, ?_, ?_⟩
  · rw [List.sum_append, hsing, h1]
    simp only [List.sum_cons, List.sum_nil, add_zero]
    push_cast
    rfl
  · intro q hq
    rw [List.mem_append] at hq
    rcases hq with hq | hq
    · obtain ⟨z, _, rfl⟩ := List.mem_map.mp hq
      exact Rat.den_intCast z
    · obtain ⟨z, _, rfl⟩ := List.mem_map.mp hq
      exact Rat.den_intCast z
  · intro hle
    rw [h1] at hle
    have hle2 : R.sum ≤ 99 := by exact_mod_cast hle
    rw [List.sum_append, hsing, h1]
    simp only [List.sum_cons, List.sum_nil, add_zero]
    have hmax : max 1 (100 - R.sum) = 100 - R.sum := by omega
    rw [hmax]
    push_cast
    ring
  · rw [hsing]
    exact List.dropLast_concat

/-- C1 amended: whenever the rule-based engine yields at least one pick,
every allocation is an integer, the entries before the last are the
rounded proportional shares of the total raw weight, and the total equals
the non-last sum plus max 1 (100 - that sum) - exactly 100 whenever the
rounded non-last entries stay at or below 99, but strictly more than 100
when they already reach 100 and the remainder is floored at 1. The
nonzero raw-weight hypothesis excludes the degenerate all-zero-weight run,
on which the JavaScript division produces no number at all (NaN). -/
theorem allocation_sum_amended (assets : List Asset) (targetReturn : ℚ)
    (riskLevel : RiskLevel) (timestamp : String)
    (_hraw : totalRawOf assets riskLevel ≠ 0)
    (hne : engineRecs (generateAnalysis assets targetReturn riskLevel
      timestamp) ≠ []) :
    ((engineRecs (generateAnalysis assets targetReturn riskLevel
        timestamp)).map PortfolioRecommendation.allocation).sum
      = (((engineRecs (generateAnalysis assets targetReturn riskLevel
          timestamp)).map PortfolioRecommendation.allocation).dropLast).sum
        + max 1 (100 - (((engineRecs (generateAnalysis assets targetReturn
          riskLevel timestamp)).map
            PortfolioRecommendation.allocation).dropLast).sum)
    ∧ (∀ q ∈ (engineRecs (generateAnalysis assets targetReturn riskLevel
        timestamp)).map PortfolioRecommendation.allocation, q.den = 1)
    ∧ ((((engineRecs (generateAnalysis assets targetReturn riskLevel
          timestamp)).map PortfolioRecommendation.allocation).dropLast).sum
          ≤ 99 →
        ((engineRecs (generateAnalysis assets targetReturn riskLevel
          timestamp)).map PortfolioRecommendation.allocation).sum = 100)
    ∧ (((engineRecs (generateAnalysis assets targetReturn riskLevel
        timestamp)).map PortfolioRecommendation.allocation).dropLast
        = (weightedPicksOf assets riskLevel).dropLast.map (fun p =>
            (jsRound (p.pct / totalRawOf assets riskLevel * 100) : ℚ))) := by
  rcases engineRecs_generateAnalysis assets targetReturn riskLevel timestamp
    with h | h
  · exact absurd h hne
  · have hp : weightedPicksOf assets riskLevel ≠ [] := by
      intro hnil
      apply hne
      rw [h, hnil]
      rfl
    have hallocs : (engineRecs (generateAnalysis assets targetReturn
        riskLevel timestamp)).map PortfolioRecommendation.allocation
        = ((normaliseAllocations (weightedPicksOf assets riskLevel)).map
            Prod.snd).map (Int.cast : ℤ → ℚ) := by
      rw [h, List.map_map, List.map_map]
      rfl
    rw [hallocs, normaliseAllocations_snd _ hp, List.map_append]
    obtain ⟨c1, c2, c3, c4⟩ := sum_with_remainder
      ((weightedPicksOf assets riskLevel).dropLast.map (fun p =>
        jsRound (p.pct
          / ((weightedPicksOf assets riskLevel).map WPick.pct).sum * 100)))
    rw [c4]
    refine ⟨c1, c2, c3, ?_⟩
    rw [List.map_map]
    rfl

/-- Full medium-risk universe for the amended-C1 witness: every blueprint
pool is populated, allocations are 13, 13, 20, 20, 15, 10 and 9. -/
def fullMediumAssets : List Asset :=
  [{ symbol := "B1", name := "B1", type := "stock", category := "bist"
     price := 10, weeklyChangePct := 3 },
   { symbol := "B2", name := "B2", type := "stock", category := "bist"
     price := 10, weeklyChangePct := 2 },
   { symbol := "U1", name := "U1", type := "stock", category := "us_stock"
     price := 10, weeklyChangePct := 4 },
   { symbol := "TF", name := "TF", type := "fund", category := "tefas"
     price := 10, weeklyChangePct := 1 },
   { symbol := "CR", name := "CR", type := "crypto", category := "crypto"
     price := 10, weeklyChangePct := 5 },
   { symbol := "CM", name := "CM", type := "commodity", category := "commodity"
     price := 10, weeklyChangePct := 1/2 },
   { symbol := "BO", name := "BO", type := "bond", category := "bond"
     price := 10, weeklyChangePct := 1/4 }]

theorem allocation_sum_amended_witness :
    ((engineRecs (generateAnalysis fullMediumAssets 5 .medium "t")).map
      PortfolioRecommendation.allocation).sum = 100 :=
  (allocation_sum_amended fullMediumAssets 5 .medium "t" (by decide)
    (by decide)).2.2.1 (by decide)

end WeeklyWealth
